import Mathlib

/-! # RandLib: a shallow embedding of the distribution classes

The C++ sources are embedded as pure functions.

* `double` (and `long double`) values are idealised as elements of a linearly ordered
  field `R`; rounding, infinities and NaN are outside the model.
* `int` values are unbounded integers; every integer expression embedded here is a
  comparison, a copy or a difference of two values of equal sign, none of which can
  leave the range of `int`.
* `std::vector` / `QVector` are lists; `y[i] = v` is `List.set`.
* A member function that mutates the object takes the old object and returns the new one.
  A call that may `throw` returns an `Except` value together with the object as the call
  leaves it.
* Functions whose bodies are not part of the sources (`<cmath>`, `RandMath`, the
  `NormalRand` member `X` of `LogNormalRand`) are parameters of the embedding.
* A `double` that holds a logarithm of a probability may be `-INFINITY`; such values are
  elements of `WithBot R`, with `⊥` for `-INFINITY` and `std::exp(-INFINITY) = 0`.
-/

namespace RandLib

/-- The functions of `<cmath>` that the sources call. -/
structure StdMath (R : Type) where
  log : R → R
  exp : R → R
  sqrt : R → R

/-- The functions of the namespace `RandMath` that the sources call. `findRoot f a b root`
returns the success flag and the value it leaves in the reference argument `root`. -/
structure RandMath (R : Type) where
  lfact : Int → R
  sampleMean : List R → R
  findRoot : (R → R) → R → R → R → Bool × R

/-- The member functions of `NormalRand` that `LogNormalRand` calls on its member `X`;
`XT` is the type of the `NormalRand` object. -/
structure NormalRand (R XT : Type) where
  setLocation : XT → R → XT
  setScale : XT → R → XT
  getLocation : XT → R
  getScale : XT → R
  getVariance : XT → R
  Mean : XT → R
  Variance : XT → R
  f : XT → R → R
  F : XT → R → R
  Quantile : XT → R → R

/-- Modelled from the spec: the contract of the `NormalRand` class, whose source is not
available. It has one Get/Set pair per canonical parameter (spec §6): a setter changes
its own parameter only, `setLocation(l); getLocation() == l` holds for every `l` and
`setScale(s); getScale() == s` for every valid scale `s > 0` (round trip of §8; a
non-positive scale is an InvalidParameter, §7). The mean of the normal distribution is
its location and its variance is the square of its scale. -/
structure NormalRand.Lawful {R XT : Type} [LinearOrderedField R] (nr : NormalRand R XT) :
    Prop where
  Mean_eq : ∀ X, nr.Mean X = nr.getLocation X
  Variance_eq : ∀ X, nr.Variance X = nr.getScale X * nr.getScale X
  getVariance_eq : ∀ X, nr.getVariance X = nr.getScale X * nr.getScale X
  getLocation_setLocation : ∀ X l, nr.getLocation (nr.setLocation X l) = l
  getScale_setLocation : ∀ X l, nr.getScale (nr.setLocation X l) = nr.getScale X
  getLocation_setScale : ∀ X s, nr.getLocation (nr.setScale X s) = nr.getLocation X
  getScale_setScale : ∀ X s, 0 < s → nr.getScale (nr.setScale X s) = s

/-- `std::exp` on a value that may be `-INFINITY`: `exp(-INFINITY) = 0`. -/
def StdMath.expExt {R : Type} [Zero R] (sm : StdMath R) (x : WithBot R) : R :=
  WithBot.recBotCoe 0 sm.exp x

/-! ## ProbabilityDistribution.cpp -/

namespace ProbabilityDistribution

/-- `ProbabilityDistribution<T>::S`: `return 1.0 - F(x);`. -/
def S {T R : Type} [One R] [Sub R] (F : T → R) (x : T) : R :=
  1 - F x

/-- The loop `for (size_t i = 0; i != size; ++i) y[i] = g(x[i]);` started at index `i`
with the elements `x[i], x[i+1], …` still to visit. -/
def assignLoop {T R : Type} (g : T → R) : List T → Nat → List R → List R
  | [], _, y => y
  | a :: rest, i, y => assignLoop g rest (i + 1) (y.set i (g a))

/-- `ProbabilityDistribution<T>::CumulativeDistributionFunction(x, y)`; the result is the
buffer `y` after the call. -/
def CumulativeDistributionFunction {T R : Type} (F : T → R) (x : List T) (y : List R) :
    List R :=
  let size := x.length
  if size > y.length then y
  else assignLoop F x 0 y

/-- `ProbabilityDistribution<T>::SurvivalFunction(x, y)`; `S` is the virtual `this->S`. -/
def SurvivalFunction {T R : Type} (S : T → R) (x : List T) (y : List R) : List R :=
  let size := x.length
  if size > y.length then y
  else assignLoop S x 0 y

end ProbabilityDistribution

/-! ## LogNormalRand.cpp -/

/-- The data members of `LogNormalRand`. -/
structure LogNormalRand (R XT : Type) where
  X : XT
  expMu : R
  expVar : R

namespace LogNormalRand

variable {R XT : Type} [LinearOrderedField R]

/-- `LogNormalRand::setLocation`. -/
def setLocation (sm : StdMath R) (nr : NormalRand R XT) (s : LogNormalRand R XT)
    (location : R) : LogNormalRand R XT :=
  let X1 := nr.setLocation s.X location
  { s with X := X1, expMu := sm.exp (nr.Mean X1) }

/-- `LogNormalRand::setScale`. -/
def setScale (sm : StdMath R) (nr : NormalRand R XT) (s : LogNormalRand R XT)
    (scale : R) : LogNormalRand R XT :=
  let X1 := nr.setScale s.X scale
  { s with X := X1, expVar := sm.exp (nr.Variance X1) }

/-- `LogNormalRand::f`. -/
def f (sm : StdMath R) (nr : NormalRand R XT) (s : LogNormalRand R XT) (x : R) : R :=
  if x > 0 then nr.f s.X (sm.log x) / x else 0

/-- `LogNormalRand::F`. -/
def F (sm : StdMath R) (nr : NormalRand R XT) (s : LogNormalRand R XT) (x : R) : R :=
  if x > 0 then nr.F s.X (sm.log x) else 0

/-- `LogNormalRand::Mean`. -/
def Mean (sm : StdMath R) (s : LogNormalRand R XT) : R :=
  s.expMu * sm.sqrt s.expVar

/-- `LogNormalRand::Variance`. -/
def Variance (s : LogNormalRand R XT) : R :=
  (s.expVar - 1) * s.expMu * s.expMu * s.expVar

/-- `LogNormalRand::Quantile`. No path of the body throws, so every branch is a
returned number. -/
def Quantile (sm : StdMath R) (rm : RandMath R) (nr : NormalRand R XT)
    (s : LogNormalRand R XT) (p : R) : Except String R :=
  if p = 0 then
    .ok 0
  else
    let y := sm.exp (nr.Quantile s.X p)
    let root := y
    let var := Variance s
    match rm.findRoot (fun x => F sm nr s x - p) (y - var) (y + var) root with
    | (true, root) => .ok root
    | (false, _) => .ok y

/-- `LogNormalRand::Median`. -/
def Median (s : LogNormalRand R XT) : R :=
  s.expMu

/-- `LogNormalRand::Mode`. -/
def Mode (s : LogNormalRand R XT) : R :=
  s.expMu / s.expVar

/-- `LogNormalRand::checkValidity`: the range-for loop with its early `return false`. -/
def checkValidity : List R → Bool
  | [] => true
  | var :: rest => if var ≤ 0 then false else checkValidity rest

/-- `LogNormalRand::fitLocationMM`; the result is the returned flag and the object after
the call. -/
def fitLocationMM (sm : StdMath R) (rm : RandMath R) (nr : NormalRand R XT)
    (s : LogNormalRand R XT) (sample : List R) : Bool × LogNormalRand R XT :=
  let average := rm.sampleMean sample
  let var := nr.getVariance s.X
  (true, setLocation sm nr s (sm.log average - (1 / 2) * var))

/-- `LogNormalRand::fitScaleMM`. -/
def fitScaleMM (sm : StdMath R) (rm : RandMath R) (nr : NormalRand R XT)
    (s : LogNormalRand R XT) (sample : List R) : Bool × LogNormalRand R XT :=
  let average := rm.sampleMean sample
  let mu := nr.getLocation s.X
  let aux := sm.log average - mu
  (true, setScale sm nr s (sm.sqrt (aux + aux)))

/-- The accumulation loop of `fitLocationAndScaleMLE`: one step adds `log(var)` to
`logMean` and its square to `logVariance`. -/
def accumulateLogs (sm : StdMath R) (sample : List R) : R × R :=
  sample.foldl
    (fun acc var =>
      let logVar := sm.log var
      (acc.1 + logVar, acc.2 + logVar * logVar))
    (0, 0)

/-- `LogNormalRand::fitLocationAndScaleMLE`. -/
def fitLocationAndScaleMLE (sm : StdMath R) (nr : NormalRand R XT)
    (s : LogNormalRand R XT) (sample : List R) : Bool × LogNormalRand R XT :=
  let n := sample.length
  if n = 0 then
    (false, s)
  else
    let sums := accumulateLogs sm sample
    let logMean := sums.1 / (n : R)
    let logVariance := sums.2 / (n : R)
    let logVariance := logVariance - logMean * logMean
    let s1 := setLocation sm nr s logMean
    (true, setScale sm nr s1 (sm.sqrt logVariance))

/-- Modelled from the spec: the inline getter `getLocation()` of the class header, which
is not among the sources; the location of a Log-Normal distribution is the location of
its normal member `X`. -/
def getLocation (nr : NormalRand R XT) (s : LogNormalRand R XT) : R :=
  nr.getLocation s.X

/-- Modelled from the spec: the inline getter `getScale()` of the class header, which is
not among the sources; the scale of a Log-Normal distribution is the scale of its normal
member `X`. -/
def getScale (nr : NormalRand R XT) (s : LogNormalRand R XT) : R :=
  nr.getScale s.X

/-- `LogNormalRand::LogNormalRand(location, scale)`; `s0` is the object as the constructor
body finds it (default-constructed `X`, uninitialised `expMu` and `expVar`). -/
def construct (sm : StdMath R) (nr : NormalRand R XT) (s0 : LogNormalRand R XT)
    (location scale : R) : LogNormalRand R XT :=
  let s1 := setLocation sm nr s0 location
  setScale sm nr s1 scale

/-- A call of one of the two setters. -/
inductive SetterCall (R : Type) where
  | location (location : R)
  | scale (scale : R)

/-- The object after one setter call. -/
def runCall (sm : StdMath R) (nr : NormalRand R XT) (s : LogNormalRand R XT) :
    SetterCall R → LogNormalRand R XT
  | .location location => setLocation sm nr s location
  | .scale scale => setScale sm nr s scale

/-- The object after a sequence of setter calls, first call first. -/
def runCalls (sm : StdMath R) (nr : NormalRand R XT) (s : LogNormalRand R XT)
    (calls : List (SetterCall R)) : LogNormalRand R XT :=
  calls.foldl (runCall sm nr) s

/-- The derived-cache invariant: `expMu = exp(location)` and `expVar = exp(scale^2)`. -/
def CacheValid (sm : StdMath R) (nr : NormalRand R XT) (s : LogNormalRand R XT) : Prop :=
  s.expMu = sm.exp (getLocation nr s) ∧
    s.expVar = sm.exp (getScale nr s * getScale nr s)

/-- The mean of the logarithms of a sample, `(1/n) Σ log x_i`, as the statistics text
defines it. -/
def meanOfLogs (sm : StdMath R) (sample : List R) : R :=
  (sample.map sm.log).sum / (sample.length : R)

/-- The population variance of the logarithms of a sample,
`(1/n) Σ (log x_i - mean)^2`, as the statistics text defines it. -/
def populationVarianceOfLogs (sm : StdMath R) (sample : List R) : R :=
  (sample.map
      (fun x => (sm.log x - meanOfLogs sm sample) * (sm.log x - meanOfLogs sm sample))).sum /
    (sample.length : R)

end LogNormalRand

/-! ## NegativeHyperGeometricRand.cpp -/

/-- The data members of `NegativeHyperGeometricRand`. -/
structure NegativeHyperGeometricRand (R : Type) where
  N : Int
  M : Int
  m : Int
  p0 : R
  pmfCoef : R

namespace NegativeHyperGeometricRand

variable {R : Type} [LinearOrderedField R]

/-- `NegativeHyperGeometricRand::SetParameters`: the outcome of the call (normal return or
the `std::invalid_argument` thrown) and the object as the call leaves it. -/
def SetParameters (rm : RandMath R) (s : NegativeHyperGeometricRand R)
    (totalSize totalSuccessesNum limitSuccessesNum : Int) :
    Except String Unit × NegativeHyperGeometricRand R :=
  if totalSize ≤ 0 ∨ totalSuccessesNum ≤ 0 ∨ limitSuccessesNum ≤ 0 then
    (.error "All parameters of Negative-HyperGeometric distribution should be positive", s)
  else if totalSuccessesNum > totalSize then
    (.error "Total size should be larger than total successes number in Negative-HyperGeometric distribution", s)
  else if limitSuccessesNum > totalSuccessesNum then
    (.error "Total successes number should be larger than limit successes number in Negative-HyperGeometric distribution", s)
  else
    let N := totalSize
    let M := totalSuccessesNum
    let m := limitSuccessesNum
    let p0 : R := (M : R) / (N : R)
    let pmfCoef := rm.lfact M
    let pmfCoef := pmfCoef + rm.lfact (N - M)
    let pmfCoef := pmfCoef - rm.lfact (m - 1)
    let pmfCoef := pmfCoef - rm.lfact (M - m)
    let pmfCoef := pmfCoef - rm.lfact N
    (.ok (), { N := N, M := M, m := m, p0 := p0, pmfCoef := pmfCoef })

/-- Modelled from the spec: the inline `MinValue()` of the class header, which is not
among the sources; the support of the distribution is `[0, N - M]`. -/
def MinValue (_s : NegativeHyperGeometricRand R) : Int :=
  0

/-- Modelled from the spec: the inline `MaxValue()` of the class header, which is not
among the sources; the support of the distribution is `[0, N - M]` (the value `N - M` is
also what `Variate` returns once all failures are drawn). -/
def MaxValue (s : NegativeHyperGeometricRand R) : Int :=
  s.N - s.M

/-- `NegativeHyperGeometricRand::logP`. -/
def logP (rm : RandMath R) (s : NegativeHyperGeometricRand R) (k : Int) : WithBot R :=
  if k < MinValue s ∨ k > MaxValue s then
    ⊥
  else
    let p := rm.lfact (k + s.m - 1)
    let p := p + rm.lfact (s.N - s.m - k)
    let p := p - rm.lfact k
    let p := p - rm.lfact (s.N - s.M - k)
    ((p + s.pmfCoef : R) : WithBot R)

/-- `NegativeHyperGeometricRand::P`. -/
def P (sm : StdMath R) (rm : RandMath R) (s : NegativeHyperGeometricRand R) (k : Int) : R :=
  if k < MinValue s ∨ k > MaxValue s then 0 else sm.expExt (logP rm s k)

/-- How a run of the loop of `Variate` ends: with a returned value after `draws` Bernoulli
draws, with the update `p /= N - num` met at `N - num = 0`, or with the iteration budget
used up. -/
inductive VariateOutcome where
  | returned (value : Int) (draws : Int)
  | divisionByZero
  | outOfFuel
  deriving DecidableEq

/-- The `while` loop of `NegativeHyperGeometricRand::Variate`, run for at most `fuel`
iterations from the state `(p, successesNum, num)`. `bern i p` is the outcome of the
`i`-th call `BernoulliRand::Variate(p)`. -/
def variateLoop (s : NegativeHyperGeometricRand R) (bern : Int → R → Bool) :
    Nat → R → Int → Int → VariateOutcome
  | 0, _, successesNum, num =>
    if successesNum < s.m then .outOfFuel else .returned (num - successesNum) num
  | fuel + 1, p, successesNum, num =>
    if successesNum < s.m then
      let num := num + 1
      let success := bern num p
      let successesNum := if success then successesNum + 1 else successesNum
      if success = true ∧ successesNum = num - s.N + s.M then
        .returned (s.N - s.M) num
      else if s.N - num = 0 then
        .divisionByZero
      else
        let p : R := ((s.M - successesNum : Int) : R) / ((s.N - num : Int) : R)
        variateLoop s bern fuel p successesNum num
    else
      .returned (num - successesNum) num

/-- `NegativeHyperGeometricRand::Variate`, with an iteration budget for its loop. -/
def Variate (s : NegativeHyperGeometricRand R) (bern : Int → R → Bool) (fuel : Nat) :
    VariateOutcome :=
  variateLoop s bern fuel s.p0 0 0

end NegativeHyperGeometricRand

/-! ## BernoulliRand.cpp -/

/-- The data members that `BernoulliRand.cpp` reads and writes: `p`, `q`, `logProb` and
`log1mProb` of the base class `BinomialDistribution`, and its own `boundary`. -/
structure BernoulliRand (R : Type) where
  p : R
  q : R
  logProb : WithBot R
  log1mProb : WithBot R
  boundary : R

namespace BernoulliRand

variable {R : Type} [LinearOrderedField R]

/-- `BernoulliRand::P`. -/
def P (s : BernoulliRand R) (k : Int) : R :=
  if k = 0 then s.q else if k = 1 then s.p else 0

/-- `BernoulliRand::logP`. -/
def logP (s : BernoulliRand R) (k : Int) : WithBot R :=
  if k = 0 then s.log1mProb else if k = 1 then s.logProb else ((0 : R) : WithBot R)

end BernoulliRand

/-! ## GammaRand.h -/

/-- The data members of `GammaDistribution` that hold the parameters and the derived
cache (the private sampling constants `genCoef` are left out). -/
structure GammaDistribution (R : Type) where
  alpha : R
  beta : R
  theta : R
  lgammaAlpha : R
  pdfCoef : R
  logAlpha : R
  logBeta : R

namespace GammaDistribution

variable {R : Type} [LinearOrderedField R]

/-- The default member initialisers of `GammaDistribution`: `alpha = 1`, `beta = 1`,
`theta = 1`, `lgammaAlpha = 0`, `pdfCoef = 0`, `logAlpha = 0`, `logBeta = 0`. -/
def memberDefaults : GammaDistribution R where
  alpha := 1
  beta := 1
  theta := 1
  lgammaAlpha := 0
  pdfCoef := 0
  logAlpha := 0
  logBeta := 0

/-- `enum GENERATOR_ID`. -/
inductive GENERATOR_ID where
  | INTEGER_SHAPE
  | ONE_AND_A_HALF_SHAPE
  | SMALL_SHAPE
  | FISHMAN
  | MARSAGLIA_TSANG
  deriving DecidableEq

/-- The range of shapes listed for each generator: `α = 1, 2, 3`; `α = 1.5`; `α < 0.34`;
`1 < α < 1.2`; `0.34 ≤ α < 1 or α ≥ 1.2` (the comments on `GENERATOR_ID`, with the closed
end `0.34 ≤ α` of the spec's regime table). -/
def documentedRange : GENERATOR_ID → R → Prop
  | .INTEGER_SHAPE, shape => shape = 1 ∨ shape = 2 ∨ shape = 3
  | .ONE_AND_A_HALF_SHAPE, shape => shape = 3 / 2
  | .SMALL_SHAPE, shape => shape < 17 / 50
  | .FISHMAN, shape => 1 < shape ∧ shape < 6 / 5
  | .MARSAGLIA_TSANG, shape => (17 / 50 ≤ shape ∧ shape < 1) ∨ 6 / 5 ≤ shape

/-- Modelled from the spec: `GammaDistribution::getIdOfUsedGenerator`, which the header
only declares. The regime table of spec §4.1 is an ordered partition (§3) and is read
top to bottom: integer shape (`α = 1, 2, 3` by the comment on `GENERATOR_ID`), `α = 1.5`,
`α < 0.34`, `1 < α < 1.2`, and Marsaglia–Tsang for the rest. -/
def getIdOfUsedGenerator (shape : R) : GENERATOR_ID :=
  if shape = 1 ∨ shape = 2 ∨ shape = 3 then .INTEGER_SHAPE
  else if shape = 3 / 2 then .ONE_AND_A_HALF_SHAPE
  else if shape < 17 / 50 then .SMALL_SHAPE
  else if 1 < shape ∧ shape < 6 / 5 then .FISHMAN
  else .MARSAGLIA_TSANG

/-- Modelled from the spec: `GammaDistribution::SetParameters(shape, rate)`, which the
header only declares. A non-positive shape or rate fails immediately (InvalidParameter,
§3 and §7) and leaves the object as it was; otherwise the parameters are stored and the
derived cache `theta = 1/β`, `log Γ(α)`, `α log β - log Γ(α)`, `log α`, `log β` is
recomputed in full (§3). -/
def SetParameters (sm : StdMath R) (lgamma : R → R) (d : GammaDistribution R)
    (shape rate : R) : Except String Unit × GammaDistribution R :=
  if shape ≤ 0 ∨ rate ≤ 0 then
    (.error "InvalidParameter", d)
  else
    (.ok (),
      { alpha := shape
        beta := rate
        theta := 1 / rate
        lgammaAlpha := lgamma shape
        pdfCoef := shape * sm.log rate - lgamma shape
        logAlpha := sm.log shape
        logBeta := sm.log rate })

/-- Modelled from the spec: the constructor `GammaDistribution(shape, rate)`, which the
header only declares: the members start from their default initialisers and the
parameters are set through `SetParameters` (construction fails on invalid values, §3). -/
def construct (sm : StdMath R) (lgamma : R → R) (shape rate : R) :
    Except String Unit × GammaDistribution R :=
  SetParameters sm lgamma memberDefaults shape rate

end GammaDistribution

/-- `static_cast<int>(x)` for a `double` `x`: truncation towards zero, defined when the
truncated value is in the range of a 32-bit `int`. -/
def staticCastInt {R : Type} [LinearOrderedField R] [FloorRing R] (x : R) : Option Int :=
  let t : Int := if 0 ≤ x then ⌊x⌋ else ⌈x⌉
  if -2 ^ 31 ≤ t ∧ t ≤ 2 ^ 31 - 1 then some t else none

namespace ChiSquaredRand

variable {R : Type} [LinearOrderedField R]

/-- `ChiSquaredRand::ChiSquaredRand(size_t degree)`:
`GammaDistribution(0.5 * degree, 0.5)`. -/
def construct (sm : StdMath R) (lgamma : R → R) (degree : Nat) :
    Except String Unit × GammaDistribution R :=
  GammaDistribution.construct sm lgamma ((1 / 2) * (degree : R)) (1 / 2)

/-- `ChiSquaredRand::GetDegree`: `static_cast<int>(2 * alpha)`, converted to `size_t`
(64 bits) on return. -/
def GetDegree [FloorRing R] (d : GammaDistribution R) : Option Nat :=
  (staticCastInt (2 * d.alpha)).map fun t => (t % 2 ^ 64).toNat

end ChiSquaredRand

/-! ## NegativeHyperGeometricRand.cpp: distribution function -/

namespace NegativeHyperGeometricRand

variable {R : Type} [LinearOrderedField R]

/-- `NegativeHyperGeometricRand::F`. The counted loop `for (int i = 0; i <= k; ++i)` runs
over `i = 0, …, k`, and `for (int i = k + 1; i <= maxVal; ++i)` over `i = k + 1 + j` for
`j = 0, …, maxVal - k - 1`. -/
def F (sm : StdMath R) (rm : RandMath R) (s : NegativeHyperGeometricRand R) (k : Int) : R :=
  if k < MinValue s then
    0
  else
    let maxVal := MaxValue s
    if k ≥ maxVal then
      1
    else if (k : R) ≤ (1 / 2) * (maxVal : R) then
      (List.range (k + 1).toNat).foldl (fun sum (i : Nat) => sum + P sm rm s (i : Int)) 0
    else
      (List.range (maxVal - k).toNat).foldl
        (fun sum (j : Nat) => sum - P sm rm s (k + 1 + (j : Int))) 1

/-- The prefix sum `Σ_{i=0..k} P(i)` of the probability mass, the textbook definition of
the cumulative distribution function (the empty sum 0 for `k < 0`). -/
def prefixSum (sm : StdMath R) (rm : RandMath R) (s : NegativeHyperGeometricRand R)
    (k : Int) : R :=
  ((List.range (k + 1).toNat).map (fun (i : Nat) => P sm rm s (i : Int))).sum

end NegativeHyperGeometricRand

/-! ## BernoulliRand.cpp: distribution function and generators -/

namespace BernoulliRand

variable {R : Type} [LinearOrderedField R]

/-- `BernoulliRand::F`. -/
def F (s : BernoulliRand R) (k : Int) : R :=
  if k < 0 then 0 else if k < 1 then s.q else 1

/-- `BernoulliRand::S`. -/
def S (s : BernoulliRand R) (k : Int) : R :=
  if k < 0 then 1 else if k < 1 then s.p else 0

/-- `BernoulliRand::SetProbability`: `SetParameters(1, probability)` of the base class
`BinomialDistribution` (not among the sources, passed as `setParameters`), then
`boundary = q * RandGenerator::MaxValue()`. The constructor has the same two steps. -/
def SetProbability (setParameters : BernoulliRand R → Int → R → BernoulliRand R)
    (MaxValue : Nat) (s : BernoulliRand R) (probability : R) : BernoulliRand R :=
  let s1 := setParameters s 1 probability
  { s1 with boundary := s1.q * (MaxValue : R) }

/-- `BernoulliRand::Variate()`: `return RandGenerator::Variate() > boundary;` where `u` is
the raw draw `RandGenerator::Variate()`. -/
def Variate (s : BernoulliRand R) (u : Nat) : Int :=
  if (u : R) > s.boundary then 1 else 0

/-- The function-local static variables of `BernoulliRand::StandardVariate`, together
with the number of words already taken from the random source. -/
structure StandardVariateState where
  decimals : Nat
  X : Nat
  drawn : Nat

/-- The static initialisers `decimals = 1`, `X = 0`; no word has been drawn. -/
def StandardVariateState.initial : StandardVariateState where
  decimals := 1
  X := 0
  drawn := 0

/-- One call of `BernoulliRand::StandardVariate`: the value returned and the static state
after the call. `source i` is the `i`-th word that `RandGenerator::Variate()` delivers;
`decimals` is a `size_t`, so `--decimals` is taken modulo `2^64`. -/
def StandardVariate (maxDecimals : Nat) (source : Nat → Nat) (st : StandardVariateState) :
    Nat × StandardVariateState :=
  let st1 : StandardVariateState :=
    if st.decimals = 1 then
      { decimals := maxDecimals, X := source st.drawn, drawn := st.drawn + 1 }
    else
      { decimals := (st.decimals + 2 ^ 64 - 1) % 2 ^ 64, X := st.X >>> 1, drawn := st.drawn }
  (st1.X &&& 1, st1)

/-- The static state before call number `n` (0-indexed), starting from the initialisers. -/
def stateBefore (maxDecimals : Nat) (source : Nat → Nat) : Nat → StandardVariateState
  | 0 => StandardVariateState.initial
  | n + 1 => (StandardVariate maxDecimals source (stateBefore maxDecimals source n)).2

/-- The value that call number `n` (0-indexed) of `StandardVariate` returns. -/
def nthStandardVariate (maxDecimals : Nat) (source : Nat → Nat) (n : Nat) : Nat :=
  (StandardVariate maxDecimals source (stateBefore maxDecimals source n)).1

end BernoulliRand

/-! ## TriangularRand.h -/

/-- The data members of `TriangularRand` (the `UniformRand` member `U` is left out). -/
structure TriangularRand (R : Type) where
  a : R
  b : R
  c : R
  constForGenerator : R
  coefGenerator1 : R
  coefGenerator2 : R

namespace TriangularRand

variable {R : Type} [LinearOrderedField R]

/-- `TriangularRand::M`. -/
def M (s : TriangularRand R) : R :=
  (s.a + s.b + s.c) / 3

/-- `TriangularRand::Var`. -/
def Var (s : TriangularRand R) : R :=
  (s.a * (s.a - s.b) + s.b * (s.b - s.c) + s.c * (s.c - s.a)) / 18

end TriangularRand

/-! ## Sample environments

Rational instances of the parameters, used to evaluate the embedding at concrete inputs. -/

/-- Rational stand-ins for `<cmath>`, exact at the arguments the examples use:
`log 1 = 0`, `exp 0 = 1`, `sqrt 0 = 0`, `sqrt 1 = 1`. -/
def sampleStdMath : StdMath ℚ where
  log := fun x => x - 1
  exp := fun x => 1 + x
  sqrt := fun x => x

/-- A `RandMath` whose root finder reports non-convergence and leaves `root` untouched. -/
def failingRandMath : RandMath ℚ where
  lfact := fun _ => 0
  sampleMean := fun l => l.sum / (l.length : ℚ)
  findRoot := fun _ _ _ root => (false, root)

/-- A `RandMath` whose root finder reports convergence to the midpoint of the bracket. -/
def convergingRandMath : RandMath ℚ where
  lfact := fun _ => 0
  sampleMean := fun l => l.sum / (l.length : ℚ)
  findRoot := fun _ a b _ => (true, (a + b) / 2)

/-- A normal distribution object stored as the pair (location, scale), with constant
stand-ins for the density and the distribution function and the location as quantile. -/
def sampleNormalRand : NormalRand ℚ (ℚ × ℚ) where
  setLocation := fun X location => (location, X.2)
  setScale := fun X scale => (X.1, scale)
  getLocation := fun X => X.1
  getScale := fun X => X.2
  getVariance := fun X => X.2 * X.2
  Mean := fun X => X.1
  Variance := fun X => X.2 * X.2
  f := fun _ _ => 1 / 2
  F := fun _ _ => 1 / 2
  Quantile := fun X _ => X.1

/-- The object `LogNormalRand(0, 1)` over the sample environment: location 0, scale 1,
`expMu = exp(0) = 1` and `expVar = exp(1)`, which the stand-in evaluates to 2. -/
def sampleLogNormal : LogNormalRand ℚ (ℚ × ℚ) where
  X := (0, 1)
  expMu := 1
  expVar := 2

/-- Modelled from the spec: a `NormalRand` stored as the pair (location, scale) that
treats a non-positive scale as an InvalidParameter (§7): the mutation does not take place
and the object keeps its parameters. The density, distribution function and quantile are
constant stand-ins. -/
def validatingNormalRand (R : Type) [LinearOrderedField R] : NormalRand R (R × R) where
  setLocation := fun X location => (location, X.2)
  setScale := fun X scale => if 0 < scale then (X.1, scale) else X
  getLocation := fun X => X.1
  getScale := fun X => X.2
  getVariance := fun X => X.2 * X.2
  Mean := fun X => X.1
  Variance := fun X => X.2 * X.2
  f := fun _ _ => 1 / 2
  F := fun _ _ => 1 / 2
  Quantile := fun X _ => X.1

/-- A `RandMath` over any field with the arithmetic mean as `sampleMean`; `lfact` and
`findRoot` are stand-ins. -/
def meanRandMath (R : Type) [LinearOrderedField R] : RandMath R where
  lfact := fun _ => 0
  sampleMean := fun l => l.sum / (l.length : R)
  findRoot := fun _ _ _ root => (false, root)

/-! ## Properties of the bulk evaluation loop -/

namespace ProbabilityDistribution

theorem assignLoop_length {T R : Type} (g : T → R) (x : List T) (i : Nat) (y : List R) :
    (assignLoop g x i y).length = y.length := by
  induction x generalizing i y with
  | nil => rfl
  | cons a rest ih => simp [assignLoop, ih]

theorem assignLoop_getElem?_lt {T R : Type} (g : T → R) (x : List T) (i j : Nat)
    (y : List R) (h : j < i) : (assignLoop g x i y)[j]? = y[j]? := by
  induction x generalizing i y with
  | nil => rfl
  | cons a rest ih =>
    simp only [assignLoop]
    rw [ih (i + 1) (y.set i (g a)) (by omega)]
    exact List.getElem?_set_ne (by omega)

theorem assignLoop_getElem?_ge {T R : Type} (g : T → R) (x : List T) (i j : Nat)
    (y : List R) (h : i + x.length ≤ j) : (assignLoop g x i y)[j]? = y[j]? := by
  induction x generalizing i y with
  | nil => rfl
  | cons a rest ih =>
    simp only [List.length_cons] at h
    simp only [assignLoop]
    rw [ih (i + 1) (y.set i (g a)) (by omega)]
    exact List.getElem?_set_ne (by omega)

theorem assignLoop_getElem?_mid {T R : Type} (g : T → R) (x : List T) (i j : Nat)
    (y : List R) (hy : i + x.length ≤ y.length) (hj : j < x.length) :
    (assignLoop g x i y)[i + j]? = (x[j]?).map g := by
  induction x generalizing i j y with
  | nil => simp at hj
  | cons a rest ih =>
    simp only [List.length_cons] at hy hj
    simp only [assignLoop]
    cases j with
    | zero =>
      have h1 := assignLoop_getElem?_lt g rest (i + 1) i (y.set i (g a)) (by omega)
      simp only [Nat.add_zero, h1]
      simp [show i < y.length by omega]
    | succ j =>
      have := ih (i + 1) j (y.set i (g a)) (by simp; omega) (by omega)
      rw [show i + (j + 1) = i + 1 + j by omega, this]
      simp

end ProbabilityDistribution

/-! ## Bulk evaluation -/

/-- C1: when the output buffer `y` is shorter than the input `x`, both
`CumulativeDistributionFunction(x, y)` and `SurvivalFunction(x, y)` return normally and
leave `y` exactly as it was (same length, same contents). -/
theorem bulk_short_buffer_no_write {T R : Type} (F S : T → R) (x : List T) (y : List R)
    (h : y.length < x.length) :
    ProbabilityDistribution.CumulativeDistributionFunction F x y = y ∧
      ProbabilityDistribution.SurvivalFunction S x y = y := by
  constructor
  · simp [ProbabilityDistribution.CumulativeDistributionFunction, h]
  · simp [ProbabilityDistribution.SurvivalFunction, h]

theorem bulk_short_buffer_no_write_witness :
    ([5] : List ℤ).length < ([1, 2] : List ℤ).length ∧
      (ProbabilityDistribution.CumulativeDistributionFunction (fun k : ℤ => k + 1)
          [1, 2] [5] = [5] ∧
        ProbabilityDistribution.SurvivalFunction (fun k : ℤ => 1 - (k + 1))
          [1, 2] [5] = [5]) :=
  ⟨by decide,
    bulk_short_buffer_no_write (fun k : ℤ => k + 1) (fun k : ℤ => 1 - (k + 1)) [1, 2] [5]
      (by decide)⟩

/-- C2: when the output buffer `y` is at least as long as the input `x`, after
`CumulativeDistributionFunction(x, y)` the buffer has its old length, holds `F(x[i])` at
every index `i < length(x)` and its old element at every index `i ≥ length(x)`;
`SurvivalFunction(x, y)` does the same with `S` in place of `F`. -/
theorem bulk_evaluation_writes_front {T R : Type} (F S : T → R) (x : List T) (y : List R)
    (h : x.length ≤ y.length) :
    ((ProbabilityDistribution.CumulativeDistributionFunction F x y).length = y.length ∧
        (∀ (i : Nat) (hi : i < x.length),
          (ProbabilityDistribution.CumulativeDistributionFunction F x y)[i]? =
            some (F x[i])) ∧
        (∀ i : Nat, x.length ≤ i →
          (ProbabilityDistribution.CumulativeDistributionFunction F x y)[i]? = y[i]?)) ∧
      ((ProbabilityDistribution.SurvivalFunction S x y).length = y.length ∧
        (∀ (i : Nat) (hi : i < x.length),
          (ProbabilityDistribution.SurvivalFunction S x y)[i]? = some (S x[i])) ∧
        (∀ i : Nat, x.length ≤ i →
          (ProbabilityDistribution.SurvivalFunction S x y)[i]? = y[i]?)) := by
  have key : ∀ g : T → R,
      (ProbabilityDistribution.assignLoop g x 0 y).length = y.length ∧
        (∀ (i : Nat) (hi : i < x.length),
          (ProbabilityDistribution.assignLoop g x 0 y)[i]? = some (g x[i])) ∧
        (∀ i : Nat, x.length ≤ i →
          (ProbabilityDistribution.assignLoop g x 0 y)[i]? = y[i]?) := by
    intro g
    refine ⟨ProbabilityDistribution.assignLoop_length g x 0 y, ?_, ?_⟩
    · intro i hi
      have := ProbabilityDistribution.assignLoop_getElem?_mid g x 0 i y (by omega) hi
      rw [Nat.zero_add] at this
      rw [this, List.getElem?_eq_getElem hi]
      rfl
    · intro i hi
      exact ProbabilityDistribution.assignLoop_getElem?_ge g x 0 i y (by omega)
  have hn : ¬ x.length > y.length := by omega
  constructor
  · simpa [ProbabilityDistribution.CumulativeDistributionFunction, hn] using key F
  · simpa [ProbabilityDistribution.SurvivalFunction, hn] using key S

theorem bulk_evaluation_writes_front_witness :
    ([1, 2] : List ℤ).length ≤ ([7, 8, 9] : List ℤ).length ∧
      ProbabilityDistribution.CumulativeDistributionFunction (fun k : ℤ => k + 1)
        [1, 2] [7, 8, 9] = [2, 3, 9] ∧
      ProbabilityDistribution.SurvivalFunction
        (ProbabilityDistribution.S (fun k : ℤ => k + 1)) [1, 2] [7, 8, 9] = [-1, -2, 9] ∧
      (ProbabilityDistribution.CumulativeDistributionFunction (fun k : ℤ => k + 1)
        [1, 2] [7, 8, 9]).length = ([7, 8, 9] : List ℤ).length :=
  ⟨by decide, by decide, by decide,
    (bulk_evaluation_writes_front (fun k : ℤ => k + 1)
      (ProbabilityDistribution.S (fun k : ℤ => k + 1)) [1, 2] [7, 8, 9] (by decide)).1.1⟩

/-! ## Log-Normal: support -/

/-- C3: for every `x ≤ 0` and every parameter value, `LogNormalRand::f(x) = 0`,
`LogNormalRand::F(x) = 0`, and the base-class survival function `S(x) = 1 - F(x)` is 1. -/
theorem logNormal_nonpositive_argument {R XT : Type} [LinearOrderedField R] (sm : StdMath R)
    (nr : NormalRand R XT) (s : LogNormalRand R XT) (x : R) (hx : x ≤ 0) :
    LogNormalRand.f sm nr s x = 0 ∧ LogNormalRand.F sm nr s x = 0 ∧
      ProbabilityDistribution.S (LogNormalRand.F sm nr s) x = 1 := by
  have h : ¬ x > 0 := not_lt.mpr hx
  simp [LogNormalRand.f, LogNormalRand.F, ProbabilityDistribution.S, h]

theorem logNormal_nonpositive_argument_witness :
    (-1 : ℚ) ≤ 0 ∧
      (LogNormalRand.f sampleStdMath sampleNormalRand sampleLogNormal (-1) = 0 ∧
        LogNormalRand.F sampleStdMath sampleNormalRand sampleLogNormal (-1) = 0 ∧
        ProbabilityDistribution.S
          (LogNormalRand.F sampleStdMath sampleNormalRand sampleLogNormal) (-1) = 1) :=
  ⟨by norm_num,
    logNormal_nonpositive_argument sampleStdMath sampleNormalRand sampleLogNormal (-1)
      (by norm_num)⟩

/-! ## Negative hypergeometric: parameter validation -/

/-- C4: `NegativeHyperGeometricRand::SetParameters(N, M, m)` throws exactly when
`N ≤ 0 ∨ M ≤ 0 ∨ m ≤ 0 ∨ M > N ∨ m > M`; when it throws, the object (N, M, m, p0,
pmfCoef) is the one before the call; when it returns, the stored parameters are the
arguments and satisfy `1 ≤ m ≤ M ≤ N`. -/
theorem negativeHyperGeometric_setParameters_validation {R : Type} [LinearOrderedField R]
    (rm : RandMath R) (s : NegativeHyperGeometricRand R) (N M m : Int) :
    ((∃ e, (NegativeHyperGeometricRand.SetParameters rm s N M m).1 = Except.error e) ↔
        (N ≤ 0 ∨ M ≤ 0 ∨ m ≤ 0 ∨ M > N ∨ m > M)) ∧
      ((∃ e, (NegativeHyperGeometricRand.SetParameters rm s N M m).1 = Except.error e) →
        (NegativeHyperGeometricRand.SetParameters rm s N M m).2 = s) ∧
      ((NegativeHyperGeometricRand.SetParameters rm s N M m).1 = Except.ok () →
        (NegativeHyperGeometricRand.SetParameters rm s N M m).2.N = N ∧
        (NegativeHyperGeometricRand.SetParameters rm s N M m).2.M = M ∧
        (NegativeHyperGeometricRand.SetParameters rm s N M m).2.m = m ∧
        1 ≤ (NegativeHyperGeometricRand.SetParameters rm s N M m).2.m ∧
        (NegativeHyperGeometricRand.SetParameters rm s N M m).2.m ≤
          (NegativeHyperGeometricRand.SetParameters rm s N M m).2.M ∧
        (NegativeHyperGeometricRand.SetParameters rm s N M m).2.M ≤
          (NegativeHyperGeometricRand.SetParameters rm s N M m).2.N) := by
  unfold NegativeHyperGeometricRand.SetParameters
  by_cases h1 : N ≤ 0 ∨ M ≤ 0 ∨ m ≤ 0
  · rw [if_pos h1]
    refine ⟨⟨fun _ => ?_, fun _ => ⟨_, rfl⟩⟩, fun _ => rfl, fun h => by simp at h⟩
    rcases h1 with h | h | h
    · exact Or.inl h
    · exact Or.inr (Or.inl h)
    · exact Or.inr (Or.inr (Or.inl h))
  · rw [if_neg h1]
    by_cases h2 : M > N
    · rw [if_pos h2]
      exact ⟨⟨fun _ => by omega, fun _ => ⟨_, rfl⟩⟩, fun _ => rfl, fun h => by simp at h⟩
    · rw [if_neg h2]
      by_cases h3 : m > M
      · rw [if_pos h3]
        exact ⟨⟨fun _ => by omega, fun _ => ⟨_, rfl⟩⟩, fun _ => rfl, fun h => by simp at h⟩
      · rw [if_neg h3]
        refine ⟨⟨fun h => ?_, fun h => ?_⟩, fun h => ?_, fun _ => ?_⟩
        · obtain ⟨e, he⟩ := h
          simp at he
        · omega
        · obtain ⟨e, he⟩ := h
          simp at he
        · simp only [true_and]
          omega

/-! ## Log-Normal: sample validation and fitting -/

theorem LogNormalRand.checkValidity_eq_true_iff {R : Type} [LinearOrderedField R]
    (sample : List R) :
    LogNormalRand.checkValidity sample = true ↔ ∀ x ∈ sample, 0 < x := by
  induction sample with
  | nil => simp [LogNormalRand.checkValidity]
  | cons a rest ih =>
    by_cases ha : a ≤ 0
    · simp [LogNormalRand.checkValidity, ha, not_lt.mpr ha]
    · simp [LogNormalRand.checkValidity, ha, ih, not_le.mp ha]

/-- C5: evaluation at the sample `{-1}`. `checkValidity` classifies it as invalid, yet
`fitLocationAndScaleMLE` accumulates `log(-1)`, passes the results to `setLocation` and
`setScale` and returns `true`. -/
theorem logNormal_fitMLE_accepts_nonpositive_sample {R XT : Type} [LinearOrderedField R]
    (sm : StdMath R) (nr : NormalRand R XT) (s : LogNormalRand R XT) :
    LogNormalRand.checkValidity [(-1 : R)] = false ∧
      LogNormalRand.fitLocationAndScaleMLE sm nr s [-1] =
        (true,
          LogNormalRand.setScale sm nr (LogNormalRand.setLocation sm nr s (sm.log (-1)))
            (sm.sqrt (sm.log (-1) * sm.log (-1) - sm.log (-1) * sm.log (-1)))) := by
  constructor
  · simp [LogNormalRand.checkValidity]
  · simp [LogNormalRand.fitLocationAndScaleMLE, LogNormalRand.accumulateLogs]

/-- C6: for the empty sample `fitLocationAndScaleMLE` returns `false` and the object
(location, scale, expMu, expVar) is unchanged; for every non-empty sample it returns
`true`. -/
theorem logNormal_fitMLE_empty_and_nonempty {R XT : Type} [LinearOrderedField R]
    (sm : StdMath R) (nr : NormalRand R XT) (s : LogNormalRand R XT) (sample : List R) :
    LogNormalRand.fitLocationAndScaleMLE sm nr s [] = (false, s) ∧
      (sample ≠ [] → (LogNormalRand.fitLocationAndScaleMLE sm nr s sample).1 = true) := by
  constructor
  · simp [LogNormalRand.fitLocationAndScaleMLE]
  · intro h
    have hn : sample.length ≠ 0 := fun h0 => h (List.length_eq_zero.mp h0)
    simp [LogNormalRand.fitLocationAndScaleMLE, hn]

/-- C7: evaluation at the empty sample. `fitLocationMM` and `fitScaleMM` have no size
check: both return `true`, the first after `setLocation(log(sampleMean({})) - 0.5 var)`,
the second after `setScale(sqrt(2 (log(sampleMean({})) - mu)))`. -/
theorem logNormal_fitMM_accepts_empty_sample {R XT : Type} [LinearOrderedField R]
    (sm : StdMath R) (rm : RandMath R) (nr : NormalRand R XT) (s : LogNormalRand R XT) :
    LogNormalRand.fitLocationMM sm rm nr s [] =
        (true,
          LogNormalRand.setLocation sm nr s
            (sm.log (rm.sampleMean []) - (1 / 2) * nr.getVariance s.X)) ∧
      LogNormalRand.fitScaleMM sm rm nr s [] =
        (true,
          LogNormalRand.setScale sm nr s
            (sm.sqrt ((sm.log (rm.sampleMean []) - nr.getLocation s.X) +
              (sm.log (rm.sampleMean []) - nr.getLocation s.X)))) :=
  ⟨rfl, rfl⟩

/-- C8: `LogNormalRand::checkValidity(sample)` returns `true` exactly when every element
of the sample is strictly positive; it returns `true` for the empty sample and `false`
whenever some element is `≤ 0`. -/
theorem logNormal_checkValidity_spec {R : Type} [LinearOrderedField R] (sample : List R) :
    (LogNormalRand.checkValidity sample = true ↔ ∀ x ∈ sample, 0 < x) ∧
      LogNormalRand.checkValidity ([] : List R) = true ∧
      (∀ x ∈ sample, x ≤ 0 → LogNormalRand.checkValidity sample = false) := by
  refine ⟨LogNormalRand.checkValidity_eq_true_iff sample, rfl, ?_⟩
  intro x hx hx0
  cases hc : LogNormalRand.checkValidity sample with
  | false => rfl
  | true =>
    have := (LogNormalRand.checkValidity_eq_true_iff sample).mp hc x hx
    exact absurd this (not_lt.mpr hx0)

/-! ## Log-Normal: quantile -/

/-- C9, as stated, fails: in the sample environment the root finder reports
non-convergence for `p = 1/2`, and `Quantile(1/2)` returns the number 1 (the initial
approximation `exp(X.Quantile(p))`), not a failure. -/
theorem logNormal_quantile_nonconvergence_returns_number :
    (failingRandMath.findRoot
        (fun x => LogNormalRand.F sampleStdMath sampleNormalRand sampleLogNormal x - 1 / 2)
        (1 - LogNormalRand.Variance sampleLogNormal)
        (1 + LogNormalRand.Variance sampleLogNormal) 1).1 = false ∧
      LogNormalRand.Quantile sampleStdMath failingRandMath sampleNormalRand sampleLogNormal
        (1 / 2) = Except.ok 1 ∧
      ¬ ∃ e, LogNormalRand.Quantile sampleStdMath failingRandMath sampleNormalRand
        sampleLogNormal (1 / 2) = Except.error e := by
  have hq : LogNormalRand.Quantile sampleStdMath failingRandMath sampleNormalRand
      sampleLogNormal (1 / 2) = Except.ok 1 := by
    simp [LogNormalRand.Quantile, failingRandMath, sampleStdMath, sampleNormalRand,
      sampleLogNormal]
  refine ⟨rfl, hq, ?_⟩
  rintro ⟨e, he⟩
  rw [hq] at he
  cases he

/-- C9, amended: when `findRoot` returns `false`, `LogNormalRand::Quantile(p)` (for
`p ≠ 0`) returns the initial approximation `y = exp(X.Quantile(p))` as an ordinary
number; no failure is signalled. -/
theorem logNormal_quantile_fallback {R XT : Type} [LinearOrderedField R] (sm : StdMath R)
    (rm : RandMath R) (nr : NormalRand R XT) (s : LogNormalRand R XT) (p : R) (hp : p ≠ 0)
    (hfail : (rm.findRoot (fun x => LogNormalRand.F sm nr s x - p)
        (sm.exp (nr.Quantile s.X p) - LogNormalRand.Variance s)
        (sm.exp (nr.Quantile s.X p) + LogNormalRand.Variance s)
        (sm.exp (nr.Quantile s.X p))).1 = false) :
    LogNormalRand.Quantile sm rm nr s p = Except.ok (sm.exp (nr.Quantile s.X p)) := by
  unfold LogNormalRand.Quantile
  rw [if_neg hp]
  rcases hr : rm.findRoot (fun x => LogNormalRand.F sm nr s x - p)
      (sm.exp (nr.Quantile s.X p) - LogNormalRand.Variance s)
      (sm.exp (nr.Quantile s.X p) + LogNormalRand.Variance s)
      (sm.exp (nr.Quantile s.X p)) with ⟨b, r⟩
  rw [hr] at hfail
  simp only at hfail
  subst hfail
  simp only [hr]

theorem logNormal_quantile_fallback_witness :
    (1 / 2 : ℚ) ≠ 0 ∧
      LogNormalRand.Quantile sampleStdMath failingRandMath sampleNormalRand sampleLogNormal
        (1 / 2) =
        Except.ok (sampleStdMath.exp (sampleNormalRand.Quantile sampleLogNormal.X (1 / 2))) :=
  ⟨by norm_num,
    logNormal_quantile_fallback sampleStdMath failingRandMath sampleNormalRand
      sampleLogNormal (1 / 2) (by norm_num) rfl⟩

/-- C10, as stated, fails: for `p = 0` the call `Quantile(0)` returns the number 0; it
does not fail. -/
theorem logNormal_quantile_zero_level_returns_number :
    LogNormalRand.Quantile sampleStdMath convergingRandMath sampleNormalRand sampleLogNormal
        0 = Except.ok 0 ∧
      ¬ ∃ e, LogNormalRand.Quantile sampleStdMath convergingRandMath sampleNormalRand
        sampleLogNormal 0 = Except.error e := by
  have hq : LogNormalRand.Quantile sampleStdMath convergingRandMath sampleNormalRand
      sampleLogNormal 0 = Except.ok 0 := by
    simp [LogNormalRand.Quantile]
  refine ⟨hq, ?_⟩
  rintro ⟨e, he⟩
  rw [hq] at he
  cases he

/-- C10, amended: `LogNormalRand::Quantile(0)` returns the numeric value 0 through its
explicit guard `if (p == 0.0) return 0.0;`, for every parameter value; no WrongLevel
failure is raised for `p = 0`. -/
theorem logNormal_quantile_zero_level {R XT : Type} [LinearOrderedField R] (sm : StdMath R)
    (rm : RandMath R) (nr : NormalRand R XT) (s : LogNormalRand R XT) :
    LogNormalRand.Quantile sm rm nr s 0 = Except.ok 0 := by
  simp [LogNormalRand.Quantile]

/-! ## Probability mass and its logarithm -/

theorem StdMath.expExt_bot {R : Type} [Zero R] (sm : StdMath R) :
    sm.expExt (⊥ : WithBot R) = 0 :=
  rfl

theorem StdMath.expExt_coe {R : Type} [Zero R] (sm : StdMath R) (x : R) :
    sm.expExt (x : WithBot R) = sm.exp x :=
  rfl

/-- C11: evaluation at `k = 2`, outside the support `{0, 1}`. `BernoulliRand::P(2)` is 0,
but `BernoulliRand::logP(2)` is the finite value 0, not `-INFINITY`, so
`exp(logP(2)) = exp(0)`, which is 1 and not `P(2)`. -/
theorem bernoulli_logP_outside_support {R : Type} [LinearOrderedField R]
    (s : BernoulliRand R) :
    BernoulliRand.P s 2 = 0 ∧
      BernoulliRand.logP s 2 = ((0 : R) : WithBot R) ∧
      BernoulliRand.logP s 2 ≠ ⊥ ∧
      ∀ sm : StdMath R, sm.expExt (BernoulliRand.logP s 2) = sm.exp 0 := by
  have h : BernoulliRand.logP s 2 = ((0 : R) : WithBot R) := by
    simp [BernoulliRand.logP]
  refine ⟨by simp [BernoulliRand.P], h, ?_, fun sm => ?_⟩
  · rw [h]
    exact WithBot.coe_ne_bot
  · rw [h]
    rfl

/-- C12: for every integer `k` outside the support `[MinValue, MaxValue] = [0, N - M]`,
`logP(k) = -INFINITY` and `P(k) = 0`; for every `k` inside, `P(k) = exp(logP(k))`; hence
`P(k) = exp(logP(k))` for every integer `k` (with `exp(-INFINITY) = 0`). -/
theorem negativeHyperGeometric_P_eq_exp_logP {R : Type} [LinearOrderedField R]
    (sm : StdMath R) (rm : RandMath R) (s : NegativeHyperGeometricRand R) (k : Int) :
    NegativeHyperGeometricRand.MinValue s = 0 ∧
      NegativeHyperGeometricRand.MaxValue s = s.N - s.M ∧
      ((k < 0 ∨ s.N - s.M < k) →
        NegativeHyperGeometricRand.logP rm s k = ⊥ ∧
          NegativeHyperGeometricRand.P sm rm s k = 0) ∧
      ((0 ≤ k ∧ k ≤ s.N - s.M) →
        NegativeHyperGeometricRand.logP rm s k ≠ ⊥ ∧
          NegativeHyperGeometricRand.P sm rm s k =
            sm.expExt (NegativeHyperGeometricRand.logP rm s k)) ∧
      NegativeHyperGeometricRand.P sm rm s k =
        sm.expExt (NegativeHyperGeometricRand.logP rm s k) := by
  have hout : (k < NegativeHyperGeometricRand.MinValue s ∨
      k > NegativeHyperGeometricRand.MaxValue s) →
      NegativeHyperGeometricRand.logP rm s k = ⊥ ∧
        NegativeHyperGeometricRand.P sm rm s k = 0 := by
    intro h
    constructor
    · unfold NegativeHyperGeometricRand.logP
      rw [if_pos h]
    · unfold NegativeHyperGeometricRand.P
      rw [if_pos h]
  have hin : ¬ (k < NegativeHyperGeometricRand.MinValue s ∨
      k > NegativeHyperGeometricRand.MaxValue s) →
      NegativeHyperGeometricRand.logP rm s k ≠ ⊥ ∧
        NegativeHyperGeometricRand.P sm rm s k =
          sm.expExt (NegativeHyperGeometricRand.logP rm s k) := by
    intro h
    constructor
    · unfold NegativeHyperGeometricRand.logP
      rw [if_neg h]
      exact WithBot.coe_ne_bot
    · unfold NegativeHyperGeometricRand.P
      rw [if_neg h]
  refine ⟨rfl, rfl, fun h => hout h, fun h => hin ?_, ?_⟩
  · simp only [NegativeHyperGeometricRand.MinValue, NegativeHyperGeometricRand.MaxValue]
    omega
  · by_cases h : k < NegativeHyperGeometricRand.MinValue s ∨
        k > NegativeHyperGeometricRand.MaxValue s
    · rw [(hout h).1, (hout h).2]
      rfl
    · exact (hin h).2

/-! ## Log-Normal: derived cache -/

theorem sampleNormalRand_lawful : sampleNormalRand.Lawful where
  Mean_eq := fun _ => rfl
  Variance_eq := fun _ => rfl
  getVariance_eq := fun _ => rfl
  getLocation_setLocation := fun _ _ => rfl
  getScale_setLocation := fun _ _ => rfl
  getLocation_setScale := fun _ _ => rfl
  getScale_setScale := fun _ _ _ => rfl

theorem validatingNormalRand_lawful (R : Type) [LinearOrderedField R] :
    (validatingNormalRand R).Lawful where
  Mean_eq := fun _ => rfl
  Variance_eq := fun _ => rfl
  getVariance_eq := fun _ => rfl
  getLocation_setLocation := fun _ _ => rfl
  getScale_setLocation := fun _ _ => rfl
  getLocation_setScale := fun X s => by
    by_cases h : 0 < s <;> simp [validatingNormalRand, h]
  getScale_setScale := fun X s h => by simp [validatingNormalRand, h]

theorem LogNormalRand.cacheValid_setLocation {R XT : Type} [LinearOrderedField R]
    (sm : StdMath R) (nr : NormalRand R XT) (hl : nr.Lawful) (s : LogNormalRand R XT)
    (location : R) (h : LogNormalRand.CacheValid sm nr s) :
    LogNormalRand.CacheValid sm nr (LogNormalRand.setLocation sm nr s location) := by
  constructor
  · simp [LogNormalRand.setLocation, LogNormalRand.getLocation, hl.Mean_eq]
  · simp only [LogNormalRand.setLocation, LogNormalRand.getScale, hl.getScale_setLocation]
    exact h.2

theorem LogNormalRand.cacheValid_setScale {R XT : Type} [LinearOrderedField R]
    (sm : StdMath R) (nr : NormalRand R XT) (hl : nr.Lawful) (s : LogNormalRand R XT)
    (scale : R) (h : LogNormalRand.CacheValid sm nr s) :
    LogNormalRand.CacheValid sm nr (LogNormalRand.setScale sm nr s scale) := by
  constructor
  · simp only [LogNormalRand.setScale, LogNormalRand.getLocation, hl.getLocation_setScale]
    exact h.1
  · simp [LogNormalRand.setScale, LogNormalRand.getScale, hl.Variance_eq]

theorem LogNormalRand.cacheValid_construct {R XT : Type} [LinearOrderedField R]
    (sm : StdMath R) (nr : NormalRand R XT) (hl : nr.Lawful) (s0 : LogNormalRand R XT)
    (location scale : R) :
    LogNormalRand.CacheValid sm nr (LogNormalRand.construct sm nr s0 location scale) := by
  constructor
  · simp [LogNormalRand.construct, LogNormalRand.setScale, LogNormalRand.setLocation,
      LogNormalRand.getLocation, hl.getLocation_setScale, hl.Mean_eq]
  · simp [LogNormalRand.construct, LogNormalRand.setScale, LogNormalRand.getScale,
      hl.Variance_eq]

theorem LogNormalRand.cacheValid_runCalls {R XT : Type} [LinearOrderedField R]
    (sm : StdMath R) (nr : NormalRand R XT) (hl : nr.Lawful)
    (calls : List (LogNormalRand.SetterCall R)) (s : LogNormalRand R XT)
    (h : LogNormalRand.CacheValid sm nr s) :
    LogNormalRand.CacheValid sm nr (LogNormalRand.runCalls sm nr s calls) := by
  induction calls generalizing s with
  | nil => exact h
  | cons c rest ih =>
    simp only [LogNormalRand.runCalls, List.foldl_cons]
    apply ih
    cases c with
    | location l => exact LogNormalRand.cacheValid_setLocation sm nr hl s l h
    | scale sc => exact LogNormalRand.cacheValid_setScale sm nr hl s sc h

/-- C13: for a `NormalRand` member that honours its contract, the object built by the
constructor and then changed by any sequence of `setLocation` / `setScale` calls satisfies
`expMu = exp(location)` and `expVar = exp(scale^2)`; `setLocation` leaves the scale and
`expVar` unchanged, and `setScale` leaves the location and `expMu` unchanged. -/
theorem logNormal_derived_cache_invariant {R XT : Type} [LinearOrderedField R]
    (sm : StdMath R) (nr : NormalRand R XT) (hl : nr.Lawful) (s0 : LogNormalRand R XT)
    (location scale : R) (calls : List (LogNormalRand.SetterCall R)) :
    LogNormalRand.CacheValid sm nr
        (LogNormalRand.runCalls sm nr (LogNormalRand.construct sm nr s0 location scale)
          calls) ∧
      (∀ (s : LogNormalRand R XT) (l : R),
        LogNormalRand.getScale nr (LogNormalRand.setLocation sm nr s l) =
            LogNormalRand.getScale nr s ∧
          (LogNormalRand.setLocation sm nr s l).expVar = s.expVar) ∧
      (∀ (s : LogNormalRand R XT) (sc : R),
        LogNormalRand.getLocation nr (LogNormalRand.setScale sm nr s sc) =
            LogNormalRand.getLocation nr s ∧
          (LogNormalRand.setScale sm nr s sc).expMu = s.expMu) := by
  refine ⟨?_, ?_, ?_⟩
  · exact LogNormalRand.cacheValid_runCalls sm nr hl calls _
      (LogNormalRand.cacheValid_construct sm nr hl s0 location scale)
  · intro s l
    exact ⟨hl.getScale_setLocation s.X l, rfl⟩
  · intro s sc
    exact ⟨hl.getLocation_setScale s.X sc, rfl⟩

theorem logNormal_derived_cache_invariant_witness :
    LogNormalRand.CacheValid sampleStdMath sampleNormalRand
      (LogNormalRand.runCalls sampleStdMath sampleNormalRand
        (LogNormalRand.construct sampleStdMath sampleNormalRand sampleLogNormal 0 1)
        [LogNormalRand.SetterCall.scale 2, LogNormalRand.SetterCall.location 3]) :=
  (logNormal_derived_cache_invariant sampleStdMath sampleNormalRand sampleNormalRand_lawful
    sampleLogNormal 0 1
    [LogNormalRand.SetterCall.scale 2, LogNormalRand.SetterCall.location 3]).1

/-! ## Log-Normal: maximum-likelihood fit -/

theorem LogNormalRand.foldl_accumulate {R : Type} [LinearOrderedField R] (sm : StdMath R)
    (sample : List R) (acc : R × R) :
    sample.foldl
        (fun acc var => (acc.1 + sm.log var, acc.2 + sm.log var * sm.log var)) acc =
      (acc.1 + (sample.map sm.log).sum,
        acc.2 + (sample.map (fun x => sm.log x * sm.log x)).sum) := by
  induction sample generalizing acc with
  | nil => simp
  | cons a rest ih =>
    simp only [List.foldl_cons, List.map_cons, List.sum_cons]
    rw [ih]
    simp only [add_assoc]

theorem LogNormalRand.accumulateLogs_eq {R : Type} [LinearOrderedField R] (sm : StdMath R)
    (sample : List R) :
    LogNormalRand.accumulateLogs sm sample =
      ((sample.map sm.log).sum, (sample.map (fun x => sm.log x * sm.log x)).sum) := by
  unfold LogNormalRand.accumulateLogs
  rw [LogNormalRand.foldl_accumulate]
  simp

theorem LogNormalRand.sum_sq_sub {R : Type} [LinearOrderedField R] (g : R → R) (c : R)
    (l : List R) :
    (l.map (fun x => (g x - c) * (g x - c))).sum =
      (l.map (fun x => g x * g x)).sum - 2 * c * (l.map g).sum + (l.length : R) * (c * c) := by
  induction l with
  | nil => simp
  | cons a rest ih =>
    simp only [List.map_cons, List.sum_cons, List.length_cons, Nat.cast_add, Nat.cast_one]
    rw [ih]
    ring

theorem LogNormalRand.populationVariance_eq {R : Type} [LinearOrderedField R]
    (sm : StdMath R) (sample : List R) (hne : sample ≠ []) :
    LogNormalRand.populationVarianceOfLogs sm sample =
      (sample.map (fun x => sm.log x * sm.log x)).sum / (sample.length : R) -
        LogNormalRand.meanOfLogs sm sample * LogNormalRand.meanOfLogs sm sample := by
  have hn : (sample.length : R) ≠ 0 := by
    have : sample.length ≠ 0 := fun h0 => hne (List.length_eq_zero.mp h0)
    exact_mod_cast this
  unfold LogNormalRand.populationVarianceOfLogs
  rw [LogNormalRand.sum_sq_sub]
  unfold LogNormalRand.meanOfLogs
  field_simp
  ring

/-- C14, as stated, fails for a sample whose logarithms are all equal: for the object
`LogNormalRand(0, 1)` and the sample `{1}` the fitter returns `true`, the population
variance of the logarithms is 0, so `setScale(sqrt(0)) = setScale(0)` is called; that is
not a valid scale, the normal member keeps scale 1, and the scale is not `sqrt(0) = 0`. -/
theorem logNormal_fitMLE_constant_sample_scale :
    ([1] : List ℝ) ≠ [] ∧
      (∀ x ∈ ([1] : List ℝ), 0 < x) ∧
      (LogNormalRand.fitLocationAndScaleMLE (StdMath.mk Real.log Real.exp Real.sqrt)
        (validatingNormalRand ℝ)
        (LogNormalRand.construct (StdMath.mk Real.log Real.exp Real.sqrt)
          (validatingNormalRand ℝ) ⟨(0, 1), 0, 0⟩ 0 1) [1]).1 = true ∧
      Real.sqrt
          (LogNormalRand.populationVarianceOfLogs (StdMath.mk Real.log Real.exp Real.sqrt)
            [1]) = 0 ∧
      LogNormalRand.getScale (validatingNormalRand ℝ)
          (LogNormalRand.fitLocationAndScaleMLE (StdMath.mk Real.log Real.exp Real.sqrt)
            (validatingNormalRand ℝ)
            (LogNormalRand.construct (StdMath.mk Real.log Real.exp Real.sqrt)
              (validatingNormalRand ℝ) ⟨(0, 1), 0, 0⟩ 0 1) [1]).2 = 1 ∧
      LogNormalRand.getScale (validatingNormalRand ℝ)
          (LogNormalRand.fitLocationAndScaleMLE (StdMath.mk Real.log Real.exp Real.sqrt)
            (validatingNormalRand ℝ)
            (LogNormalRand.construct (StdMath.mk Real.log Real.exp Real.sqrt)
              (validatingNormalRand ℝ) ⟨(0, 1), 0, 0⟩ 0 1) [1]).2 ≠
        Real.sqrt
          (LogNormalRand.populationVarianceOfLogs (StdMath.mk Real.log Real.exp Real.sqrt)
            [1]) := by
  have hV : Real.sqrt
      (LogNormalRand.populationVarianceOfLogs (StdMath.mk Real.log Real.exp Real.sqrt)
        [1]) = 0 := by
    simp [LogNormalRand.populationVarianceOfLogs, LogNormalRand.meanOfLogs]
  have hS : LogNormalRand.getScale (validatingNormalRand ℝ)
      (LogNormalRand.fitLocationAndScaleMLE (StdMath.mk Real.log Real.exp Real.sqrt)
        (validatingNormalRand ℝ)
        (LogNormalRand.construct (StdMath.mk Real.log Real.exp Real.sqrt)
          (validatingNormalRand ℝ) ⟨(0, 1), 0, 0⟩ 0 1) [1]).2 = 1 := by
    simp [LogNormalRand.fitLocationAndScaleMLE, LogNormalRand.accumulateLogs,
      LogNormalRand.getScale, LogNormalRand.construct, LogNormalRand.setScale,
      LogNormalRand.setLocation, validatingNormalRand]
  refine ⟨by simp, ?_, ?_, hV, hS, ?_⟩
  · intro x hx
    simp only [List.mem_singleton] at hx
    rw [hx]
    exact one_pos
  · simp [LogNormalRand.fitLocationAndScaleMLE]
  · rw [hS, hV]
    exact one_ne_zero

/-- C14, amended: on a non-empty sample of positive values `fitLocationAndScaleMLE`
returns `true` after `setLocation(mean of the logarithms)` and `setScale(sqrt(V))`, where
`V = (1/n) Σ (log x_i)^2 - ((1/n) Σ log x_i)^2` is the population variance
`(1/n) Σ (log x_i - mean)^2` of the logarithms. With a `NormalRand` member that honours
its contract the location then is that mean, and the scale is `sqrt(V)` whenever this is
a valid (positive) scale, that is, whenever the logarithms are not all equal. The sample
is an unmodified input value. -/
theorem logNormal_fitMLE_estimates {R XT : Type} [LinearOrderedField R] (sm : StdMath R)
    (nr : NormalRand R XT) (s : LogNormalRand R XT) (sample : List R) (hne : sample ≠ [])
    (_hpos : ∀ x ∈ sample, 0 < x) :
    LogNormalRand.fitLocationAndScaleMLE sm nr s sample =
        (true,
          LogNormalRand.setScale sm nr
            (LogNormalRand.setLocation sm nr s (LogNormalRand.meanOfLogs sm sample))
            (sm.sqrt (LogNormalRand.populationVarianceOfLogs sm sample))) ∧
      LogNormalRand.populationVarianceOfLogs sm sample =
        (sample.map (fun x => sm.log x * sm.log x)).sum / (sample.length : R) -
          LogNormalRand.meanOfLogs sm sample * LogNormalRand.meanOfLogs sm sample ∧
      (nr.Lawful →
        LogNormalRand.getLocation nr (LogNormalRand.fitLocationAndScaleMLE sm nr s sample).2 =
            LogNormalRand.meanOfLogs sm sample ∧
          (0 < sm.sqrt (LogNormalRand.populationVarianceOfLogs sm sample) →
            LogNormalRand.getScale nr
                (LogNormalRand.fitLocationAndScaleMLE sm nr s sample).2 =
              sm.sqrt (LogNormalRand.populationVarianceOfLogs sm sample))) := by
  have hn : sample.length ≠ 0 := fun h0 => hne (List.length_eq_zero.mp h0)
  have hv := LogNormalRand.populationVariance_eq sm sample hne
  have hfit : LogNormalRand.fitLocationAndScaleMLE sm nr s sample =
      (true,
        LogNormalRand.setScale sm nr
          (LogNormalRand.setLocation sm nr s (LogNormalRand.meanOfLogs sm sample))
          (sm.sqrt (LogNormalRand.populationVarianceOfLogs sm sample))) := by
    rw [hv]
    simp only [LogNormalRand.fitLocationAndScaleMLE, if_neg hn,
      LogNormalRand.accumulateLogs_eq, LogNormalRand.meanOfLogs]
  refine ⟨hfit, hv, fun hl => ?_⟩
  rw [hfit]
  constructor
  · simp [LogNormalRand.getLocation, LogNormalRand.setScale, LogNormalRand.setLocation,
      hl.getLocation_setScale, hl.getLocation_setLocation]
  · intro hpos
    simp [LogNormalRand.getScale, LogNormalRand.setScale, hl.getScale_setScale _ _ hpos]

theorem logNormal_fitMLE_estimates_witness :
    LogNormalRand.fitLocationAndScaleMLE sampleStdMath sampleNormalRand sampleLogNormal
          [1, 3] =
        (true,
          LogNormalRand.setScale sampleStdMath sampleNormalRand
            (LogNormalRand.setLocation sampleStdMath sampleNormalRand sampleLogNormal
              (LogNormalRand.meanOfLogs sampleStdMath [1, 3]))
            (sampleStdMath.sqrt
              (LogNormalRand.populationVarianceOfLogs sampleStdMath [1, 3]))) ∧
      LogNormalRand.getLocation sampleNormalRand
          (LogNormalRand.fitLocationAndScaleMLE sampleStdMath sampleNormalRand
            sampleLogNormal [1, 3]).2 =
        LogNormalRand.meanOfLogs sampleStdMath [1, 3] ∧
      LogNormalRand.getScale sampleNormalRand
          (LogNormalRand.fitLocationAndScaleMLE sampleStdMath sampleNormalRand
            sampleLogNormal [1, 3]).2 =
        sampleStdMath.sqrt (LogNormalRand.populationVarianceOfLogs sampleStdMath [1, 3]) :=
  ⟨(logNormal_fitMLE_estimates sampleStdMath sampleNormalRand sampleLogNormal [1, 3]
      (by simp) (by
        intro x hx
        simp only [List.mem_cons, List.mem_singleton, List.not_mem_nil, or_false] at hx
        rcases hx with rfl | rfl <;> norm_num)).1,
    ((logNormal_fitMLE_estimates sampleStdMath sampleNormalRand sampleLogNormal [1, 3]
      (by simp) (by
        intro x hx
        simp only [List.mem_cons, List.mem_singleton, List.not_mem_nil, or_false] at hx
        rcases hx with rfl | rfl <;> norm_num)).2.2 sampleNormalRand_lawful).1,
    ((logNormal_fitMLE_estimates sampleStdMath sampleNormalRand sampleLogNormal [1, 3]
      (by simp) (by
        intro x hx
        simp only [List.mem_cons, List.mem_singleton, List.not_mem_nil, or_false] at hx
        rcases hx with rfl | rfl <;> norm_num)).2.2 sampleNormalRand_lawful).2
      (by norm_num [sampleStdMath, LogNormalRand.populationVarianceOfLogs,
        LogNormalRand.meanOfLogs])⟩

/-! ## Log-Normal: method of moments -/

/-- C15, as stated, fails at the boundary `log(a) = location`: the object
`LogNormalRand(0, 1)` and the sample `{1}` have sample mean `a = 1` and
`log(a) = 0 = location`, so `fitScaleMM` passes the scale `sqrt(0) = 0` to `setScale`.
That is not a valid scale; the normal member keeps scale 1 and `Mean()` stays
`exp(0) * sqrt(exp(1))`, which is not 1. -/
theorem logNormal_fitScaleMM_boundary_mean :
    0 < (meanRandMath ℝ).sampleMean [1] ∧
      LogNormalRand.getLocation (validatingNormalRand ℝ)
          (LogNormalRand.construct (StdMath.mk Real.log Real.exp Real.sqrt)
            (validatingNormalRand ℝ) ⟨(0, 1), 0, 0⟩ 0 1) ≤
        Real.log ((meanRandMath ℝ).sampleMean [1]) ∧
      LogNormalRand.Mean (StdMath.mk Real.log Real.exp Real.sqrt)
          (LogNormalRand.fitScaleMM (StdMath.mk Real.log Real.exp Real.sqrt) (meanRandMath ℝ)
            (validatingNormalRand ℝ)
            (LogNormalRand.construct (StdMath.mk Real.log Real.exp Real.sqrt)
              (validatingNormalRand ℝ) ⟨(0, 1), 0, 0⟩ 0 1) [1]).2 ≠
        (meanRandMath ℝ).sampleMean [1] := by
  have hm : (meanRandMath ℝ).sampleMean [1] = 1 := by simp [meanRandMath]
  rw [hm]
  refine ⟨one_pos, ?_, ?_⟩
  · simp [LogNormalRand.getLocation, LogNormalRand.construct, LogNormalRand.setScale,
      LogNormalRand.setLocation, validatingNormalRand]
  · simp only [LogNormalRand.fitScaleMM, LogNormalRand.Mean, LogNormalRand.construct,
      LogNormalRand.setScale, LogNormalRand.setLocation, validatingNormalRand, hm]
    norm_num

/-- C15, amended: in exact arithmetic, for a `NormalRand` member that honours its
contract, an object whose cache is valid and a sample with positive sample mean `a`:
after `fitLocationMM(sample)` the distribution's `Mean()` equals `a` and the scale is
unchanged; after `fitScaleMM(sample)`, whenever `log(a) > location`, `Mean()` equals `a`
and the location is unchanged. -/
theorem logNormal_fitMM_round_trip {XT : Type} (sm : StdMath ℝ)
    (hsm : sm = StdMath.mk Real.log Real.exp Real.sqrt) (rm : RandMath ℝ)
    (nr : NormalRand ℝ XT) (hl : nr.Lawful) (s : LogNormalRand ℝ XT)
    (hs : LogNormalRand.CacheValid sm nr s) (sample : List ℝ)
    (ha : 0 < rm.sampleMean sample) :
    (LogNormalRand.Mean sm (LogNormalRand.fitLocationMM sm rm nr s sample).2 =
          rm.sampleMean sample ∧
        LogNormalRand.getScale nr (LogNormalRand.fitLocationMM sm rm nr s sample).2 =
          LogNormalRand.getScale nr s) ∧
      (LogNormalRand.getLocation nr s < Real.log (rm.sampleMean sample) →
        LogNormalRand.Mean sm (LogNormalRand.fitScaleMM sm rm nr s sample).2 =
            rm.sampleMean sample ∧
          LogNormalRand.getLocation nr (LogNormalRand.fitScaleMM sm rm nr s sample).2 =
            LogNormalRand.getLocation nr s) := by
  subst hsm
  obtain ⟨hmu, hvar⟩ := hs
  simp only [LogNormalRand.getLocation, LogNormalRand.getScale] at hmu hvar
  refine ⟨⟨?_, ?_⟩, fun hlt => ⟨?_, ?_⟩⟩
  · simp only [LogNormalRand.fitLocationMM, LogNormalRand.Mean, LogNormalRand.setLocation,
      hl.Mean_eq, hl.getLocation_setLocation, hl.getVariance_eq, hvar]
    rw [← Real.exp_half, ← Real.exp_add]
    have : Real.log (rm.sampleMean sample) - 1 / 2 * (nr.getScale s.X * nr.getScale s.X) +
        nr.getScale s.X * nr.getScale s.X / 2 = Real.log (rm.sampleMean sample) := by ring
    rw [this, Real.exp_log ha]
  · simp only [LogNormalRand.fitLocationMM, LogNormalRand.getScale,
      LogNormalRand.setLocation, hl.getScale_setLocation]
  · have haux : 0 < Real.log (rm.sampleMean sample) - nr.getLocation s.X +
        (Real.log (rm.sampleMean sample) - nr.getLocation s.X) := by
      have : nr.getLocation s.X < Real.log (rm.sampleMean sample) := hlt
      linarith
    have hsq : 0 < Real.sqrt (Real.log (rm.sampleMean sample) - nr.getLocation s.X +
        (Real.log (rm.sampleMean sample) - nr.getLocation s.X)) := Real.sqrt_pos.mpr haux
    simp only [LogNormalRand.fitScaleMM, LogNormalRand.Mean, LogNormalRand.setScale,
      hl.Variance_eq, hl.getScale_setScale _ _ hsq, Real.mul_self_sqrt haux.le, hmu]
    rw [← Real.exp_half, ← Real.exp_add]
    have : nr.getLocation s.X + (Real.log (rm.sampleMean sample) - nr.getLocation s.X +
        (Real.log (rm.sampleMean sample) - nr.getLocation s.X)) / 2 =
          Real.log (rm.sampleMean sample) := by ring
    rw [this, Real.exp_log ha]
  · simp only [LogNormalRand.fitScaleMM, LogNormalRand.getLocation, LogNormalRand.setScale,
      hl.getLocation_setScale]

theorem logNormal_fitMM_round_trip_witness :
    LogNormalRand.Mean (StdMath.mk Real.log Real.exp Real.sqrt)
        (LogNormalRand.fitLocationMM (StdMath.mk Real.log Real.exp Real.sqrt)
          (meanRandMath ℝ) (validatingNormalRand ℝ)
          (LogNormalRand.construct (StdMath.mk Real.log Real.exp Real.sqrt)
            (validatingNormalRand ℝ) ⟨(0, 1), 0, 0⟩ 0 1) [2]).2 =
      (meanRandMath ℝ).sampleMean [2] :=
  (logNormal_fitMM_round_trip (StdMath.mk Real.log Real.exp Real.sqrt) rfl (meanRandMath ℝ)
    (validatingNormalRand ℝ) (validatingNormalRand_lawful ℝ)
    (LogNormalRand.construct (StdMath.mk Real.log Real.exp Real.sqrt)
      (validatingNormalRand ℝ) ⟨(0, 1), 0, 0⟩ 0 1)
    (LogNormalRand.cacheValid_construct _ _ (validatingNormalRand_lawful ℝ) _ 0 1) [2]
    (by simp [meanRandMath])).1.1

/-! ## Gamma: generator selection, defaults, chi-squared degree -/

/-- C16, as stated, fails: the listed ranges overlap. The shape `α = 2` lies in the range
of `INTEGER_SHAPE` (`α ∈ {1, 2, 3}`) and in the range of `MARSAGLIA_TSANG` (`α ≥ 1.2`);
the selection returns `INTEGER_SHAPE`. -/
theorem gamma_generator_ranges_overlap :
    GammaDistribution.documentedRange GammaDistribution.GENERATOR_ID.INTEGER_SHAPE (2 : ℚ) ∧
      GammaDistribution.documentedRange GammaDistribution.GENERATOR_ID.MARSAGLIA_TSANG
        (2 : ℚ) ∧
      GammaDistribution.getIdOfUsedGenerator (2 : ℚ) =
        GammaDistribution.GENERATOR_ID.INTEGER_SHAPE := by
  refine ⟨?_, ?_, ?_⟩
  · simp [GammaDistribution.documentedRange]
  · simp only [GammaDistribution.documentedRange]
    norm_num
  · simp [GammaDistribution.getIdOfUsedGenerator]

/-- C16, amended: the selection is a total function of the shape alone, and every shape
maps to exactly one regime: `INTEGER_SHAPE` iff `α ∈ {1, 2, 3}`, `ONE_AND_A_HALF_SHAPE`
iff `α = 1.5`, `SMALL_SHAPE` iff `α < 0.34`, `FISHMAN` iff `1 < α < 1.2`, and
`MARSAGLIA_TSANG` iff (`0.34 ≤ α < 1` or `α ≥ 1.2`) and `α ∉ {1.5, 2, 3}`; the regime
returned always has `α` in its listed range. -/
theorem gamma_generator_selection {R : Type} [LinearOrderedField R] (shape : R) :
    (GammaDistribution.getIdOfUsedGenerator shape =
          GammaDistribution.GENERATOR_ID.INTEGER_SHAPE ↔
        shape = 1 ∨ shape = 2 ∨ shape = 3) ∧
      (GammaDistribution.getIdOfUsedGenerator shape =
          GammaDistribution.GENERATOR_ID.ONE_AND_A_HALF_SHAPE ↔
        shape = 3 / 2) ∧
      (GammaDistribution.getIdOfUsedGenerator shape =
          GammaDistribution.GENERATOR_ID.SMALL_SHAPE ↔
        shape < 17 / 50) ∧
      (GammaDistribution.getIdOfUsedGenerator shape =
          GammaDistribution.GENERATOR_ID.FISHMAN ↔
        1 < shape ∧ shape < 6 / 5) ∧
      (GammaDistribution.getIdOfUsedGenerator shape =
          GammaDistribution.GENERATOR_ID.MARSAGLIA_TSANG ↔
        ((17 / 50 ≤ shape ∧ shape < 1) ∨ 6 / 5 ≤ shape) ∧
          shape ≠ 3 / 2 ∧ shape ≠ 2 ∧ shape ≠ 3) ∧
      GammaDistribution.documentedRange (GammaDistribution.getIdOfUsedGenerator shape)
        shape := by
  unfold GammaDistribution.getIdOfUsedGenerator
  by_cases h1 : shape = 1 ∨ shape = 2 ∨ shape = 3
  · rw [if_pos h1]
    refine ⟨iff_of_true rfl h1, iff_of_false (by decide) ?_, iff_of_false (by decide) ?_,
      iff_of_false (by decide) ?_, iff_of_false (by decide) ?_, h1⟩
    · rcases h1 with h | h | h <;> subst h <;> norm_num
    · rcases h1 with h | h | h <;> subst h <;> norm_num
    · rcases h1 with h | h | h <;> subst h <;> norm_num
    · rcases h1 with h | h | h <;> subst h <;> norm_num
  · rw [if_neg h1]
    have h1a : shape ≠ 1 := fun h => h1 (Or.inl h)
    have h1b : shape ≠ 2 := fun h => h1 (Or.inr (Or.inl h))
    have h1c : shape ≠ 3 := fun h => h1 (Or.inr (Or.inr h))
    by_cases h2 : shape = 3 / 2
    · rw [if_pos h2]
      refine ⟨iff_of_false (by decide) h1, iff_of_true rfl h2, iff_of_false (by decide) ?_,
        iff_of_false (by decide) ?_, iff_of_false (by decide) ?_, h2⟩
      · subst h2; norm_num
      · subst h2; norm_num
      · exact fun h => h.2.1 h2
    · rw [if_neg h2]
      by_cases h3 : shape < 17 / 50
      · rw [if_pos h3]
        refine ⟨iff_of_false (by decide) h1, iff_of_false (by decide) h2, iff_of_true rfl h3,
          iff_of_false (by decide) ?_, iff_of_false (by decide) ?_, h3⟩
        · rintro ⟨h, -⟩
          linarith
        · rintro ⟨h | h, -⟩
          · linarith [h.1]
          · linarith
      · rw [if_neg h3]
        by_cases h4 : 1 < shape ∧ shape < 6 / 5
        · rw [if_pos h4]
          refine ⟨iff_of_false (by decide) h1, iff_of_false (by decide) h2,
            iff_of_false (by decide) h3, iff_of_true rfl h4, iff_of_false (by decide) ?_, h4⟩
          rintro ⟨h | h, -⟩
          · linarith [h.2, h4.1]
          · linarith [h4.2]
        · rw [if_neg h4]
          have h3' : 17 / 50 ≤ shape := not_lt.mp h3
          have hr : (17 / 50 ≤ shape ∧ shape < 1) ∨ 6 / 5 ≤ shape := by
            by_cases h5 : shape < 1
            · exact Or.inl ⟨h3', h5⟩
            · right
              have h6 : 1 < shape := lt_of_le_of_ne (not_lt.mp h5) (Ne.symm h1a)
              by_contra h7
              exact h4 ⟨h6, not_le.mp h7⟩
          exact ⟨iff_of_false (by decide) h1, iff_of_false (by decide) h2,
            iff_of_false (by decide) h3, iff_of_false (by decide) h4,
            iff_of_true rfl ⟨hr, h2, h1b, h1c⟩, hr⟩

/-- C17: the default member values of `GammaDistribution` satisfy the parameter and
derived-cache invariants: `α > 0`, `β > 0`, `theta = 1/β`, `logAlpha = log α`,
`logBeta = log β`, `lgammaAlpha = log Γ(α)` and `pdfCoef = α log β - log Γ(α)`. -/
theorem gamma_member_defaults_valid :
    0 < (GammaDistribution.memberDefaults : GammaDistribution ℝ).alpha ∧
      0 < (GammaDistribution.memberDefaults : GammaDistribution ℝ).beta ∧
      (GammaDistribution.memberDefaults : GammaDistribution ℝ).theta =
        1 / (GammaDistribution.memberDefaults : GammaDistribution ℝ).beta ∧
      (GammaDistribution.memberDefaults : GammaDistribution ℝ).logAlpha =
        Real.log (GammaDistribution.memberDefaults : GammaDistribution ℝ).alpha ∧
      (GammaDistribution.memberDefaults : GammaDistribution ℝ).logBeta =
        Real.log (GammaDistribution.memberDefaults : GammaDistribution ℝ).beta ∧
      (GammaDistribution.memberDefaults : GammaDistribution ℝ).lgammaAlpha =
        Real.log (Real.Gamma (GammaDistribution.memberDefaults : GammaDistribution ℝ).alpha) ∧
      (GammaDistribution.memberDefaults : GammaDistribution ℝ).pdfCoef =
        (GammaDistribution.memberDefaults : GammaDistribution ℝ).alpha *
            Real.log (GammaDistribution.memberDefaults : GammaDistribution ℝ).beta -
          Real.log
            (Real.Gamma (GammaDistribution.memberDefaults : GammaDistribution ℝ).alpha) := by
  simp [GammaDistribution.memberDefaults, Real.Gamma_one]

theorem staticCastInt_natCast {R : Type} [LinearOrderedField R] [FloorRing R] (k : Nat)
    (hk : k ≤ 2 ^ 31 - 1) : staticCastInt ((k : R)) = some (k : Int) := by
  have h0 : (0 : R) ≤ (k : R) := Nat.cast_nonneg k
  have hfloor : ⌊(k : R)⌋ = (k : Int) := Int.floor_natCast k
  unfold staticCastInt
  simp only [if_pos h0, hfloor]
  have hr : (-2 ^ 31 ≤ (k : Int) ∧ (k : Int) ≤ 2 ^ 31 - 1) := by
    constructor <;> omega
  rw [if_pos hr]

/-- C18: for every degree `1 ≤ k ≤ 2^31 - 1`, the constructor `ChiSquaredRand(k)`
succeeds and builds the Gamma distribution with shape `0.5 k` and rate `0.5`, and
`GetDegree()`, the integer cast of `2 * alpha`, returns exactly `k`. -/
theorem chiSquared_degree_round_trip {R : Type} [LinearOrderedField R] [FloorRing R]
    (sm : StdMath R) (lgamma : R → R) (k : Nat) (h1 : 1 ≤ k) (h2 : k ≤ 2 ^ 31 - 1) :
    (ChiSquaredRand.construct sm lgamma k).1 = Except.ok () ∧
      (ChiSquaredRand.construct sm lgamma k).2.alpha = (1 / 2) * (k : R) ∧
      (ChiSquaredRand.construct sm lgamma k).2.beta = 1 / 2 ∧
      ChiSquaredRand.GetDegree (ChiSquaredRand.construct sm lgamma k).2 = some k := by
  have hk : (0 : R) < (k : R) := by exact_mod_cast h1
  have hvalid : ¬ ((1 / 2) * (k : R) ≤ 0 ∨ (1 / 2 : R) ≤ 0) := by
    rintro (h | h)
    · linarith
    · norm_num at h
  have hc : ChiSquaredRand.construct sm lgamma k =
      (Except.ok (),
        { alpha := (1 / 2) * (k : R)
          beta := 1 / 2
          theta := 1 / (1 / 2)
          lgammaAlpha := lgamma ((1 / 2) * (k : R))
          pdfCoef := (1 / 2) * (k : R) * sm.log (1 / 2) - lgamma ((1 / 2) * (k : R))
          logAlpha := sm.log ((1 / 2) * (k : R))
          logBeta := sm.log (1 / 2) }) := by
    unfold ChiSquaredRand.construct GammaDistribution.construct
      GammaDistribution.SetParameters
    rw [if_neg hvalid]
  rw [hc]
  refine ⟨rfl, rfl, rfl, ?_⟩
  have h2a : (2 : R) * ((1 / 2) * (k : R)) = (k : R) := by ring
  simp only [ChiSquaredRand.GetDegree, h2a, staticCastInt_natCast k h2, Option.map_some']
  congr 1
  omega

theorem chiSquared_degree_round_trip_witness :
    ChiSquaredRand.GetDegree
        (ChiSquaredRand.construct sampleStdMath (fun _ : ℚ => 0) 3).2 = some 3 :=
  (chiSquared_degree_round_trip sampleStdMath (fun _ : ℚ => 0) 3 (by decide)
    (by decide)).2.2.2

/-! ## Negative hypergeometric: the generator loop -/

theorem NegativeHyperGeometricRand.variateLoop_returns {R : Type} [LinearOrderedField R]
    (s : NegativeHyperGeometricRand R) (bern : Int → R → Bool)
    (hmM : s.m ≤ s.M)
    (hbern : ∀ (i : Int) (p : R), 1 ≤ p → bern i p = true) (fuel : Nat) (p : R)
    (successesNum num : Int) (h0 : 0 ≤ successesNum) (h1 : successesNum ≤ num)
    (h2 : num - successesNum ≤ s.N - s.M) (h3 : successesNum ≤ s.m)
    (hp : successesNum < s.m →
      p = ((s.M - successesNum : Int) : R) / ((s.N - num : Int) : R))
    (hfuel : s.N - num ≤ (fuel : Int)) :
    ∃ value draws,
      NegativeHyperGeometricRand.variateLoop s bern fuel p successesNum num =
          NegativeHyperGeometricRand.VariateOutcome.returned value draws ∧
        num ≤ draws ∧ draws ≤ s.N ∧ 0 ≤ value ∧ value ≤ s.N - s.M := by
  induction fuel generalizing p successesNum num with
  | zero =>
    have hge : ¬ successesNum < s.m := by
      intro hlt
      simp only [Nat.cast_zero] at hfuel
      omega
    refine ⟨num - successesNum, num, ?_, le_refl _, ?_, ?_, h2⟩
    · simp only [NegativeHyperGeometricRand.variateLoop, if_neg hge]
    · omega
    · omega
  | succ fuel ih =>
    by_cases hlt : successesNum < s.m
    · have hp' := hp hlt
      simp only [NegativeHyperGeometricRand.variateLoop, if_pos hlt]
      by_cases hb : bern (num + 1) p = true
      · simp only [hb, if_true, true_and]
        by_cases hret : successesNum + 1 = num + 1 - s.N + s.M
        · rw [if_pos hret]
          exact ⟨s.N - s.M, num + 1, rfl, by omega, by omega, by omega, le_refl _⟩
        · rw [if_neg hret]
          have hne : ¬ s.N - (num + 1) = 0 := by omega
          rw [if_neg hne]
          obtain ⟨v, d, hv, hd1, hd2, hv1, hv2⟩ :=
            ih (((s.M - (successesNum + 1) : Int) : R) / ((s.N - (num + 1) : Int) : R))
              (successesNum + 1) (num + 1) (by omega) (by omega) (by omega) (by omega)
              (fun _ => rfl) (by push_cast at hfuel ⊢; omega)
          exact ⟨v, d, hv, by omega, hd2, hv1, hv2⟩
      · have hb' : bern (num + 1) p = false := by simpa using hb
        simp only [hb', Bool.false_eq_true, if_false, false_and]
        have hfail : num - successesNum < s.N - s.M := by
          by_contra hcon
          have heq : s.M - successesNum = s.N - num := by omega
          have hpos : ((s.N - num : Int) : R) ≠ 0 := by
            have : s.N - num ≠ 0 := by omega
            exact_mod_cast this
          have hp1 : p = 1 := by
            rw [hp', heq]
            exact div_self hpos
          have := hbern (num + 1) p (by rw [hp1])
          rw [this] at hb'
          cases hb'
        have hne : ¬ s.N - (num + 1) = 0 := by omega
        rw [if_neg hne]
        obtain ⟨v, d, hv, hd1, hd2, hv1, hv2⟩ :=
          ih (((s.M - successesNum : Int) : R) / ((s.N - (num + 1) : Int) : R))
            successesNum (num + 1) h0 (by omega) (by omega) h3
            (fun _ => rfl) (by push_cast at hfuel ⊢; omega)
        exact ⟨v, d, hv, by omega, hd2, hv1, hv2⟩
    · refine ⟨num - successesNum, num, ?_, le_refl _, ?_, ?_, h2⟩
      · simp only [NegativeHyperGeometricRand.variateLoop, if_neg hlt]
      · omega
      · omega

/-- C19: for valid parameters `1 ≤ m ≤ M ≤ N` and Bernoulli outcomes in which a draw with
success probability `≥ 1` always succeeds, the loop of `Variate` terminates within `N`
iterations (the budget `N` suffices): it returns after at most `N` draws, never reaches
the update `p /= N - num` with `N - num = 0`, and the value returned lies in the support
`[0, N - M]`. -/
theorem negativeHyperGeometric_variate_terminates {R : Type} [LinearOrderedField R]
    (s : NegativeHyperGeometricRand R) (bern : Int → R → Bool)
    (hm : 1 ≤ s.m) (hmM : s.m ≤ s.M) (hMN : s.M ≤ s.N)
    (hp0 : s.p0 = (s.M : R) / (s.N : R))
    (hbern : ∀ (i : Int) (p : R), 1 ≤ p → bern i p = true) :
    ∃ value draws,
      NegativeHyperGeometricRand.Variate s bern s.N.toNat =
          NegativeHyperGeometricRand.VariateOutcome.returned value draws ∧
        draws ≤ s.N ∧ 0 ≤ value ∧ value ≤ s.N - s.M := by
  obtain ⟨v, d, hv, -, hd, hv1, hv2⟩ :=
    NegativeHyperGeometricRand.variateLoop_returns s bern hmM hbern s.N.toNat s.p0 0 0
      (le_refl _) (le_refl _) (by omega) (by omega)
      (fun _ => by rw [hp0]; simp) (by omega)
  exact ⟨v, d, hv, hd, hv1, hv2⟩

theorem negativeHyperGeometric_variate_terminates_witness :
    ∃ value draws,
      NegativeHyperGeometricRand.Variate
          (NegativeHyperGeometricRand.mk 3 2 1 (2 / 3 : ℚ) 0)
          (fun _ p => decide (1 ≤ p)) 3 =
          NegativeHyperGeometricRand.VariateOutcome.returned value draws ∧
        draws ≤ 3 ∧ 0 ≤ value ∧ value ≤ 3 - 2 :=
  negativeHyperGeometric_variate_terminates
    (NegativeHyperGeometricRand.mk 3 2 1 (2 / 3 : ℚ) 0) (fun _ p => decide (1 ≤ p))
    (by decide) (by decide) (by decide) (by norm_num)
    (fun _ p hp => by simpa using hp)

/-! ## Negative hypergeometric: normalisation of the probability mass -/

theorem NegativeHyperGeometricRand.choose_antidiagonal_zero (a d : ℕ) :
    ∑ ij ∈ Finset.antidiagonal d, (ij.1 + a).choose a = (a + d + 1).choose (a + 1) := by
  induction d with
  | zero => simp
  | succ d ih =>
    rw [Finset.Nat.sum_antidiagonal_succ']
    simp only
    rw [ih]
    have e1 : a + (d + 1) + 1 = (a + d + 1) + 1 := by ring
    have e2 : d + 1 + a = a + d + 1 := by ring
    rw [e1, Nat.choose_succ_succ' (a + d + 1) a, e2]

theorem NegativeHyperGeometricRand.choose_antidiagonal (a b d : ℕ) :
    ∑ ij ∈ Finset.antidiagonal d, (ij.1 + a).choose a * (ij.2 + b).choose b =
      (a + b + d + 1).choose (a + b + 1) := by
  induction b generalizing d with
  | zero =>
    simpa using NegativeHyperGeometricRand.choose_antidiagonal_zero a d
  | succ b ihb =>
    induction d with
    | zero => simp
    | succ d ihd =>
      rw [Finset.Nat.sum_antidiagonal_succ']
      simp only
      have hsplit : ∀ ij : ℕ × ℕ,
          (ij.1 + a).choose a * (ij.2 + 1 + (b + 1)).choose (b + 1) =
            (ij.1 + a).choose a * (ij.2 + 1 + b).choose b +
              (ij.1 + a).choose a * (ij.2 + (b + 1)).choose (b + 1) := by
        intro ij
        have e : ij.2 + 1 + (b + 1) = (ij.2 + 1 + b) + 1 := by ring
        have e' : ij.2 + (b + 1) = ij.2 + 1 + b := by ring
        rw [e, Nat.choose_succ_succ', e', Nat.mul_add]
      simp only [hsplit, Finset.sum_add_distrib]
      rw [ihd]
      have hb := ihb (d + 1)
      rw [Finset.Nat.sum_antidiagonal_succ'] at hb
      simp only at hb
      have e0 : (0 + (b + 1)).choose (b + 1) = 1 := by simp
      have e0' : (0 + b).choose b = 1 := by simp
      rw [e0', mul_one] at hb
      rw [e0, mul_one, ← add_assoc, hb]
      have e1 : a + (b + 1) + (d + 1) + 1 = (a + b + (d + 1) + 1) + 1 := by ring
      have e2 : a + (b + 1) + d + 1 = a + b + (d + 1) + 1 := by ring
      have e3 : a + (b + 1) + 1 = (a + b + 1) + 1 := by ring
      rw [e1, e2, e3, Nat.choose_succ_succ' (a + b + (d + 1) + 1) (a + b + 1)]

theorem NegativeHyperGeometricRand.choose_range (a b d : ℕ) :
    ∑ k ∈ Finset.range (d + 1), (k + a).choose k * (b + d - k).choose b =
      (a + 1 + b + d).choose (a + 1 + b) := by
  have h := NegativeHyperGeometricRand.choose_antidiagonal a b d
  rw [Finset.Nat.sum_antidiagonal_eq_sum_range_succ_mk] at h
  have e : a + 1 + b + d = a + b + d + 1 := by ring
  have e' : a + 1 + b = a + b + 1 := by ring
  rw [e, e', ← h]
  apply Finset.sum_congr rfl
  intro k hk
  have hk' : k ≤ d := Nat.lt_succ_iff.mp (Finset.mem_range.mp hk)
  have e1 : (k + a).choose k = (k + a).choose a := Nat.choose_symm_add
  have e2 : b + d - k = d - k + b := by omega
  simp only [e1, e2]

theorem NegativeHyperGeometricRand.P_eq_choose (sm : StdMath ℝ) (hexp : sm.exp = Real.exp)
    (rm : RandMath ℝ)
    (hlfact : ∀ n : ℕ, rm.lfact (n : ℤ) = Real.log (n.factorial : ℝ))
    (s : NegativeHyperGeometricRand ℝ) (a b d k : ℕ) (hk : k ≤ d)
    (hN : s.N = ((a + 1 + b + d : ℕ) : ℤ)) (hM : s.M = ((a + 1 + b : ℕ) : ℤ))
    (hm : s.m = ((a + 1 : ℕ) : ℤ))
    (hc : s.pmfCoef =
      Real.log ((a + 1 + b).factorial : ℝ) + Real.log (d.factorial : ℝ) -
        Real.log (a.factorial : ℝ) - Real.log (b.factorial : ℝ) -
        Real.log ((a + 1 + b + d).factorial : ℝ)) :
    NegativeHyperGeometricRand.P sm rm s (k : ℤ) =
      (((k + a).choose k : ℝ) * ((b + d - k).choose b : ℝ)) /
        ((a + 1 + b + d).choose (a + 1 + b) : ℝ) := by
  have hrange : ¬ ((k : ℤ) < NegativeHyperGeometricRand.MinValue s ∨
      (k : ℤ) > NegativeHyperGeometricRand.MaxValue s) := by
    simp only [NegativeHyperGeometricRand.MinValue, NegativeHyperGeometricRand.MaxValue,
      hN, hM]
    omega
  have e1 : (k : ℤ) + s.m - 1 = ((k + a : ℕ) : ℤ) := by rw [hm]; omega
  have e2 : s.N - s.m - (k : ℤ) = ((b + d - k : ℕ) : ℤ) := by rw [hN, hm]; omega
  have e3 : s.N - s.M - (k : ℤ) = ((d - k : ℕ) : ℤ) := by rw [hN, hM]; omega
  have hx : ∀ n : ℕ, Real.exp (Real.log (n.factorial : ℝ)) = (n.factorial : ℝ) :=
    fun n => Real.exp_log (by positivity)
  have h1 : ((k + a).factorial : ℝ) =
      ((k + a).choose k : ℝ) * (k.factorial : ℝ) * (a.factorial : ℝ) := by
    have := Nat.add_choose_mul_factorial_mul_factorial k a
    rw [← Nat.choose_symm_add] at this
    exact_mod_cast this.symm
  have h2 : ((b + d - k).factorial : ℝ) =
      ((b + d - k).choose b : ℝ) * (b.factorial : ℝ) * ((d - k).factorial : ℝ) := by
    have := Nat.add_choose_mul_factorial_mul_factorial b (d - k)
    rw [← Nat.choose_symm_add] at this
    have e : b + (d - k) = b + d - k := by omega
    rw [e] at this
    exact_mod_cast this.symm
  have h3 : ((a + 1 + b + d).factorial : ℝ) =
      ((a + 1 + b + d).choose (a + 1 + b) : ℝ) * ((a + 1 + b).factorial : ℝ) *
        (d.factorial : ℝ) := by
    have := Nat.add_choose_mul_factorial_mul_factorial (a + 1 + b) d
    rw [← Nat.choose_symm_add] at this
    exact_mod_cast this.symm
  have hc3 : ((a + 1 + b + d).choose (a + 1 + b) : ℝ) ≠ 0 := by
    have : 0 < (a + 1 + b + d).choose (a + 1 + b) := Nat.choose_pos (by omega)
    positivity
  have hk0 : (k.factorial : ℝ) ≠ 0 := by positivity
  have ha0 : (a.factorial : ℝ) ≠ 0 := by positivity
  have hb0 : (b.factorial : ℝ) ≠ 0 := by positivity
  have hd0 : (d.factorial : ℝ) ≠ 0 := by positivity
  have hdk0 : ((d - k).factorial : ℝ) ≠ 0 := by positivity
  have hM0 : ((a + 1 + b).factorial : ℝ) ≠ 0 := by positivity
  unfold NegativeHyperGeometricRand.P NegativeHyperGeometricRand.logP
  rw [if_neg hrange, if_neg hrange, StdMath.expExt_coe, hexp]
  simp only [e1, e2, e3, hlfact, hc, Real.exp_add, Real.exp_sub, hx]
  rw [h1, h2, h3]
  field_simp
  ring

/-- C20: in exact arithmetic with `lfact(n) = log n!`, for every valid parameter triple
`1 ≤ m ≤ M ≤ N` the object that `SetParameters(N, M, m)` builds has
`P(k) = C(k+m-1, k) C(N-m-k, M-m) / C(N, M)` for `0 ≤ k ≤ N - M`, and the sum of `P(k)`
over `k = 0..N-M` equals 1. -/
theorem negativeHyperGeometric_pmf_normalised (sm : StdMath ℝ) (hexp : sm.exp = Real.exp)
    (rm : RandMath ℝ)
    (hlfact : ∀ n : ℕ, rm.lfact (n : ℤ) = Real.log (n.factorial : ℝ))
    (s0 : NegativeHyperGeometricRand ℝ) (N M m : ℕ) (hm : 1 ≤ m) (hmM : m ≤ M)
    (hMN : M ≤ N) :
    (NegativeHyperGeometricRand.SetParameters rm s0 N M m).1 = Except.ok () ∧
      (∀ k : ℕ, k ≤ N - M →
        NegativeHyperGeometricRand.P sm rm
            (NegativeHyperGeometricRand.SetParameters rm s0 N M m).2 (k : ℤ) =
          (((k + m - 1).choose k : ℝ) * ((N - m - k).choose (M - m) : ℝ)) /
            (N.choose M : ℝ)) ∧
      ∑ k ∈ Finset.range (N - M + 1),
          NegativeHyperGeometricRand.P sm rm
            (NegativeHyperGeometricRand.SetParameters rm s0 N M m).2 (k : ℤ) = 1 := by
  obtain ⟨a, rfl⟩ : ∃ a, m = a + 1 := ⟨m - 1, by omega⟩
  obtain ⟨b, rfl⟩ : ∃ b, M = a + 1 + b := ⟨M - (a + 1), by omega⟩
  obtain ⟨d, rfl⟩ : ∃ d, N = a + 1 + b + d := ⟨N - (a + 1 + b), by omega⟩
  have c1 : ¬ (((a + 1 + b + d : ℕ) : ℤ) ≤ 0 ∨ ((a + 1 + b : ℕ) : ℤ) ≤ 0 ∨
      ((a + 1 : ℕ) : ℤ) ≤ 0) := by omega
  have c2 : ¬ (((a + 1 + b : ℕ) : ℤ) > ((a + 1 + b + d : ℕ) : ℤ)) := by omega
  have c3 : ¬ (((a + 1 : ℕ) : ℤ) > ((a + 1 + b : ℕ) : ℤ)) := by omega
  have i1 : ((a + 1 + b + d : ℕ) : ℤ) - ((a + 1 + b : ℕ) : ℤ) = ((d : ℕ) : ℤ) := by omega
  have i2 : ((a + 1 : ℕ) : ℤ) - 1 = ((a : ℕ) : ℤ) := by omega
  have i3 : ((a + 1 + b : ℕ) : ℤ) - ((a + 1 : ℕ) : ℤ) = ((b : ℕ) : ℤ) := by omega
  have hfst : (NegativeHyperGeometricRand.SetParameters rm s0 ((a + 1 + b + d : ℕ) : ℤ)
      ((a + 1 + b : ℕ) : ℤ) ((a + 1 : ℕ) : ℤ)).1 = Except.ok () := by
    unfold NegativeHyperGeometricRand.SetParameters
    rw [if_neg c1, if_neg c2, if_neg c3]
  have hN : (NegativeHyperGeometricRand.SetParameters rm s0 ((a + 1 + b + d : ℕ) : ℤ)
      ((a + 1 + b : ℕ) : ℤ) ((a + 1 : ℕ) : ℤ)).2.N = ((a + 1 + b + d : ℕ) : ℤ) := by
    unfold NegativeHyperGeometricRand.SetParameters
    rw [if_neg c1, if_neg c2, if_neg c3]
  have hM : (NegativeHyperGeometricRand.SetParameters rm s0 ((a + 1 + b + d : ℕ) : ℤ)
      ((a + 1 + b : ℕ) : ℤ) ((a + 1 : ℕ) : ℤ)).2.M = ((a + 1 + b : ℕ) : ℤ) := by
    unfold NegativeHyperGeometricRand.SetParameters
    rw [if_neg c1, if_neg c2, if_neg c3]
  have hm' : (NegativeHyperGeometricRand.SetParameters rm s0 ((a + 1 + b + d : ℕ) : ℤ)
      ((a + 1 + b : ℕ) : ℤ) ((a + 1 : ℕ) : ℤ)).2.m = ((a + 1 : ℕ) : ℤ) := by
    unfold NegativeHyperGeometricRand.SetParameters
    rw [if_neg c1, if_neg c2, if_neg c3]
  have hc : (NegativeHyperGeometricRand.SetParameters rm s0 ((a + 1 + b + d : ℕ) : ℤ)
      ((a + 1 + b : ℕ) : ℤ) ((a + 1 : ℕ) : ℤ)).2.pmfCoef =
      Real.log ((a + 1 + b).factorial : ℝ) + Real.log (d.factorial : ℝ) -
        Real.log (a.factorial : ℝ) - Real.log (b.factorial : ℝ) -
        Real.log ((a + 1 + b + d).factorial : ℝ) := by
    unfold NegativeHyperGeometricRand.SetParameters
    rw [if_neg c1, if_neg c2, if_neg c3]
    simp only [i1, i2, i3, hlfact]
  have hP : ∀ k : ℕ, k ≤ d →
      NegativeHyperGeometricRand.P sm rm
          (NegativeHyperGeometricRand.SetParameters rm s0 ((a + 1 + b + d : ℕ) : ℤ)
            ((a + 1 + b : ℕ) : ℤ) ((a + 1 : ℕ) : ℤ)).2 (k : ℤ) =
        (((k + a).choose k : ℝ) * ((b + d - k).choose b : ℝ)) /
          ((a + 1 + b + d).choose (a + 1 + b) : ℝ) :=
    fun k hk =>
      NegativeHyperGeometricRand.P_eq_choose sm hexp rm hlfact _ a b d k hk hN hM hm' hc
  have n1 : a + 1 + b + d - (a + 1 + b) = d := by omega
  have n2 : a + 1 + b - (a + 1) = b := by omega
  refine ⟨hfst, ?_, ?_⟩
  · intro k hk
    rw [n1] at hk
    have n3 : k + (a + 1) - 1 = k + a := by omega
    have n4 : a + 1 + b + d - (a + 1) - k = b + d - k := by omega
    rw [n2, n3, n4]
    exact hP k hk
  · rw [n1]
    have hsum : ∑ k ∈ Finset.range (d + 1),
        NegativeHyperGeometricRand.P sm rm
          (NegativeHyperGeometricRand.SetParameters rm s0 ((a + 1 + b + d : ℕ) : ℤ)
            ((a + 1 + b : ℕ) : ℤ) ((a + 1 : ℕ) : ℤ)).2 (k : ℤ) =
        ∑ k ∈ Finset.range (d + 1),
          (((k + a).choose k : ℝ) * ((b + d - k).choose b : ℝ)) /
            ((a + 1 + b + d).choose (a + 1 + b) : ℝ) := by
      apply Finset.sum_congr rfl
      intro k hk
      exact hP k (Nat.lt_succ_iff.mp (Finset.mem_range.mp hk))
    have hc3 : ((a + 1 + b + d).choose (a + 1 + b) : ℝ) ≠ 0 := by
      have : 0 < (a + 1 + b + d).choose (a + 1 + b) := Nat.choose_pos (by omega)
      positivity
    have hnat := NegativeHyperGeometricRand.choose_range a b d
    have hreal : ∑ k ∈ Finset.range (d + 1),
        (((k + a).choose k : ℝ) * ((b + d - k).choose b : ℝ)) =
          ((a + 1 + b + d).choose (a + 1 + b) : ℝ) := by
      exact_mod_cast hnat
    rw [hsum, ← Finset.sum_div, hreal, div_self hc3]

theorem negativeHyperGeometric_pmf_normalised_witness :
    ∑ k ∈ Finset.range (3 - 2 + 1),
        NegativeHyperGeometricRand.P (StdMath.mk Real.log Real.exp Real.sqrt)
          (RandMath.mk (fun n => Real.log (n.toNat.factorial : ℝ)) (fun _ => 0)
            (fun _ _ _ root => (false, root)))
          (NegativeHyperGeometricRand.SetParameters
            (RandMath.mk (fun n => Real.log (n.toNat.factorial : ℝ)) (fun _ => 0)
              (fun _ _ _ root => (false, root)))
            (NegativeHyperGeometricRand.mk 0 0 0 0 0) ((3 : ℕ) : ℤ) ((2 : ℕ) : ℤ)
            ((1 : ℕ) : ℤ)).2 (k : ℤ) = 1 :=
  (negativeHyperGeometric_pmf_normalised (StdMath.mk Real.log Real.exp Real.sqrt) rfl
    (RandMath.mk (fun n => Real.log (n.toNat.factorial : ℝ)) (fun _ => 0)
      (fun _ _ _ root => (false, root)))
    (fun n => by simp) (NegativeHyperGeometricRand.mk 0 0 0 0 0) 3 2 1 (by decide)
    (by decide) (by decide)).2.2

/-! ## Bernoulli: distribution function, survival function, instance generator -/

/-- C22: for every integer `k` and every `p`, `q` with `q = 1 - p`, the overridden
`BernoulliRand::S(k)` equals the base-class definition `1 - F(k)`, and
`F(k) - F(k - 1) = P(k)`. -/
theorem bernoulli_survival_agrees {R : Type} [LinearOrderedField R] (s : BernoulliRand R)
    (hq : s.q = 1 - s.p) (k : Int) :
    BernoulliRand.S s k = ProbabilityDistribution.S (BernoulliRand.F s) k ∧
      BernoulliRand.S s k = 1 - BernoulliRand.F s k ∧
      BernoulliRand.F s k - BernoulliRand.F s (k - 1) = BernoulliRand.P s k := by
  have hS : BernoulliRand.S s k = 1 - BernoulliRand.F s k := by
    unfold BernoulliRand.S BernoulliRand.F
    by_cases h0 : k < 0
    · simp [h0]
    · by_cases h1 : k < 1
      · simp [h0, h1, hq]
      · simp [h0, h1]
  refine ⟨hS, hS, ?_⟩
  unfold BernoulliRand.F BernoulliRand.P
  by_cases h0 : k < 0
  · have h0' : k - 1 < 0 := by omega
    have hk0 : k ≠ 0 := by omega
    have hk1 : k ≠ 1 := by omega
    simp [h0, h0', hk0, hk1]
  · by_cases h1 : k < 1
    · have hk : k = 0 := by omega
      subst hk
      simp
    · by_cases h2 : k = 1
      · subst h2
        simp [hq]
      · have hk0 : k ≠ 0 := by omega
        have a1 : ¬ k - 1 < 0 := by omega
        have a2 : ¬ k - 1 < 1 := by omega
        simp [h0, h1, a1, a2, hk0, h2]

theorem bernoulli_survival_agrees_witness :
    BernoulliRand.S (BernoulliRand.mk (1 / 4 : ℚ) (3 / 4) 0 0 0) 0 =
        1 - BernoulliRand.F (BernoulliRand.mk (1 / 4 : ℚ) (3 / 4) 0 0 0) 0 ∧
      BernoulliRand.F (BernoulliRand.mk (1 / 4 : ℚ) (3 / 4) 0 0 0) 1 -
          BernoulliRand.F (BernoulliRand.mk (1 / 4 : ℚ) (3 / 4) 0 0 0) (1 - 1) =
        BernoulliRand.P (BernoulliRand.mk (1 / 4 : ℚ) (3 / 4) 0 0 0) 1 :=
  ⟨(bernoulli_survival_agrees (BernoulliRand.mk (1 / 4 : ℚ) (3 / 4) 0 0 0)
      (by norm_num) 0).2.1,
    (bernoulli_survival_agrees (BernoulliRand.mk (1 / 4 : ℚ) (3 / 4) 0 0 0)
      (by norm_num) 1).2.2⟩

/-- C24: evaluation of `BernoulliRand::Variate()`. The value returned is 0 or 1 and is 1
exactly when the raw draw `u` exceeds `boundary = q * MaxValue`; with `q = 1` it is 0 for
every `u ≤ MaxValue`. With `q = 0` (success probability 1) the boundary is 0 and the raw
draw `u = 0` returns 0, not 1; the object that `SetProbability(1)` builds behaves so. -/
theorem bernoulli_variate_boundary {R : Type} [LinearOrderedField R] (s : BernoulliRand R)
    (MaxValue u : Nat) :
    (BernoulliRand.Variate s u = 0 ∨ BernoulliRand.Variate s u = 1) ∧
      (BernoulliRand.Variate s u = 1 ↔ (u : R) > s.boundary) ∧
      (s.q = 1 → s.boundary = s.q * (MaxValue : R) → u ≤ MaxValue →
        BernoulliRand.Variate s u = 0) ∧
      (s.q = 0 → s.boundary = s.q * (MaxValue : R) → BernoulliRand.Variate s 0 = 0) ∧
      (∀ setParameters : BernoulliRand R → Int → R → BernoulliRand R,
        (setParameters s 1 1).q = 0 →
          BernoulliRand.Variate (BernoulliRand.SetProbability setParameters MaxValue s 1) 0 =
            0) := by
  refine ⟨?_, ?_, ?_, ?_, ?_⟩
  · unfold BernoulliRand.Variate
    by_cases h : (u : R) > s.boundary
    · right; rw [if_pos h]
    · left; rw [if_neg h]
  · unfold BernoulliRand.Variate
    by_cases h : (u : R) > s.boundary
    · simp [h]
    · simp [h]
  · intro hq hb hu
    unfold BernoulliRand.Variate
    have : ¬ (u : R) > s.boundary := by
      rw [hb, hq, one_mul]
      exact not_lt.mpr (by exact_mod_cast hu)
    rw [if_neg this]
  · intro hq hb
    unfold BernoulliRand.Variate
    have : ¬ ((0 : Nat) : R) > s.boundary := by
      rw [hb, hq, zero_mul]
      simp
    rw [if_neg this]
  · intro setParameters hq
    unfold BernoulliRand.Variate BernoulliRand.SetProbability
    simp [hq]

/-! ## Log-Normal: location statistics -/

/-- C25: in exact arithmetic, for a cache with `expMu = exp(μ)` and `expVar = exp(σ²)`:
`Mode() = exp(μ - σ²)`, `Median() = exp(μ)`, `Mean() = exp(μ + σ²/2)`,
`Variance() = (exp(σ²) - 1) exp(2μ + σ²) ≥ 0`, `Mode() ≤ Median() ≤ Mean()`, and the three
are equal exactly when `σ = 0`. -/
theorem logNormal_location_statistics {XT : Type} (sm : StdMath ℝ)
    (hsm : sm = StdMath.mk Real.log Real.exp Real.sqrt) (s : LogNormalRand ℝ XT) (μ σ : ℝ)
    (hmu : s.expMu = Real.exp μ) (hvar : s.expVar = Real.exp (σ ^ 2)) :
    LogNormalRand.Mode s = Real.exp (μ - σ ^ 2) ∧
      LogNormalRand.Median s = Real.exp μ ∧
      LogNormalRand.Mean sm s = Real.exp (μ + σ ^ 2 / 2) ∧
      LogNormalRand.Variance s = (Real.exp (σ ^ 2) - 1) * Real.exp (2 * μ + σ ^ 2) ∧
      0 ≤ LogNormalRand.Variance s ∧
      LogNormalRand.Mode s ≤ LogNormalRand.Median s ∧
      LogNormalRand.Median s ≤ LogNormalRand.Mean sm s ∧
      ((LogNormalRand.Mode s = LogNormalRand.Median s ∧
          LogNormalRand.Median s = LogNormalRand.Mean sm s) ↔ σ = 0) := by
  subst hsm
  have hσ : 0 ≤ σ ^ 2 := sq_nonneg σ
  have hmode : LogNormalRand.Mode s = Real.exp (μ - σ ^ 2) := by
    simp only [LogNormalRand.Mode, hmu, hvar, Real.exp_sub]
  have hmed : LogNormalRand.Median s = Real.exp μ := by
    simp only [LogNormalRand.Median, hmu]
  have hmean : LogNormalRand.Mean (StdMath.mk Real.log Real.exp Real.sqrt) s =
      Real.exp (μ + σ ^ 2 / 2) := by
    simp only [LogNormalRand.Mean, hmu, hvar]
    rw [← Real.exp_half, ← Real.exp_add]
  have hvarr : LogNormalRand.Variance s =
      (Real.exp (σ ^ 2) - 1) * Real.exp (2 * μ + σ ^ 2) := by
    simp only [LogNormalRand.Variance, hmu, hvar]
    have : Real.exp (2 * μ + σ ^ 2) = Real.exp μ * Real.exp μ * Real.exp (σ ^ 2) := by
      rw [← Real.exp_add, ← Real.exp_add]
      congr 1
      ring
    rw [this]
    ring
  refine ⟨hmode, hmed, hmean, hvarr, ?_, ?_, ?_, ?_⟩
  · rw [hvarr]
    apply mul_nonneg
    · have : 1 ≤ Real.exp (σ ^ 2) := Real.one_le_exp hσ
      linarith
    · exact (Real.exp_pos _).le
  · rw [hmode, hmed]
    exact Real.exp_le_exp.mpr (by linarith)
  · rw [hmed, hmean]
    exact Real.exp_le_exp.mpr (by linarith)
  · rw [hmode, hmed, hmean]
    constructor
    · rintro ⟨h1, -⟩
      have := Real.exp_injective h1
      have h2 : σ ^ 2 = 0 := by linarith
      exact pow_eq_zero_iff (two_ne_zero) |>.mp h2
    · intro h
      subst h
      constructor <;> norm_num

theorem logNormal_location_statistics_witness :
    LogNormalRand.Mode (LogNormalRand.mk ((0 : ℝ), (1 : ℝ)) (Real.exp 0) (Real.exp (1 ^ 2))) ≤
      LogNormalRand.Median
        (LogNormalRand.mk ((0 : ℝ), (1 : ℝ)) (Real.exp 0) (Real.exp (1 ^ 2))) :=
  (logNormal_location_statistics (StdMath.mk Real.log Real.exp Real.sqrt) rfl
    (LogNormalRand.mk ((0 : ℝ), (1 : ℝ)) (Real.exp 0) (Real.exp (1 ^ 2))) 0 1 rfl
    rfl).2.2.2.2.2.1

/-! ## Triangular: mean and variance -/

/-- C26: for all `a`, `b`, `c`, `TriangularRand::M()` is `(a + b + c)/3` and
`TriangularRand::Var()` is `(a (a - b) + b (b - c) + c (c - a))/18`, which equals the
standard triangular variance `(a² + b² + c² - ab - ac - bc)/18`, is non-negative, and is
zero exactly when `a = b = c`; whenever `a ≤ c ≤ b` the mean `M()` lies in `[a, b]`. -/
theorem triangular_mean_variance {R : Type} [LinearOrderedField R] (s : TriangularRand R) :
    TriangularRand.M s = (s.a + s.b + s.c) / 3 ∧
      TriangularRand.Var s =
        (s.a * (s.a - s.b) + s.b * (s.b - s.c) + s.c * (s.c - s.a)) / 18 ∧
      TriangularRand.Var s =
        (s.a ^ 2 + s.b ^ 2 + s.c ^ 2 - s.a * s.b - s.a * s.c - s.b * s.c) / 18 ∧
      0 ≤ TriangularRand.Var s ∧
      (TriangularRand.Var s = 0 ↔ s.a = s.b ∧ s.b = s.c) ∧
      (s.a ≤ s.c → s.c ≤ s.b → s.a ≤ TriangularRand.M s ∧ TriangularRand.M s ≤ s.b) := by
  have hsq : TriangularRand.Var s =
      ((s.a - s.b) ^ 2 + (s.b - s.c) ^ 2 + (s.c - s.a) ^ 2) / 36 := by
    unfold TriangularRand.Var
    ring
  refine ⟨rfl, rfl, by unfold TriangularRand.Var; ring, ?_, ?_, ?_⟩
  · rw [hsq]
    positivity
  · rw [hsq]
    constructor
    · intro h
      have h36 : (s.a - s.b) ^ 2 + (s.b - s.c) ^ 2 + (s.c - s.a) ^ 2 = 0 := by
        have := div_eq_zero_iff.mp h
        rcases this with h' | h'
        · exact h'
        · norm_num at h'
      have h1 : (s.a - s.b) ^ 2 = 0 := by
        nlinarith [sq_nonneg (s.a - s.b), sq_nonneg (s.b - s.c), sq_nonneg (s.c - s.a)]
      have h2 : (s.b - s.c) ^ 2 = 0 := by
        nlinarith [sq_nonneg (s.a - s.b), sq_nonneg (s.b - s.c), sq_nonneg (s.c - s.a)]
      have e1 := pow_eq_zero_iff (two_ne_zero) |>.mp h1
      have e2 := pow_eq_zero_iff (two_ne_zero) |>.mp h2
      exact ⟨sub_eq_zero.mp e1, sub_eq_zero.mp e2⟩
    · rintro ⟨h1, h2⟩
      rw [h1, h2]
      simp
  · intro h1 h2
    unfold TriangularRand.M
    constructor
    · rw [le_div_iff₀ (by norm_num : (0 : R) < 3)]
      linarith
    · rw [div_le_iff₀ (by norm_num : (0 : R) < 3)]
      linarith

/-! ## Bernoulli: the bit stream of `StandardVariate` -/

theorem BernoulliRand.succ_div_mod (D n : Nat) (hD : 0 < D) :
    (n % D + 1 < D ∧ (n + 1) % D = n % D + 1 ∧ (n + 1) / D = n / D) ∨
      (n % D + 1 = D ∧ (n + 1) % D = 0 ∧ (n + 1) / D = n / D + 1) := by
  have hlt := Nat.mod_lt n hD
  have hdm := Nat.div_add_mod n D
  by_cases h : n % D + 1 < D
  · left
    have e : n + 1 = (n % D + 1) + D * (n / D) := by omega
    refine ⟨h, ?_, ?_⟩
    · rw [e, Nat.add_mul_mod_self_left, Nat.mod_eq_of_lt h]
    · rw [e, Nat.add_mul_div_left _ _ hD, Nat.div_eq_of_lt h, Nat.zero_add]
  · right
    have h' : n % D + 1 = D := by omega
    have e : n + 1 = D * (n / D + 1) := by
      rw [Nat.mul_add, Nat.mul_one]
      omega
    refine ⟨h', ?_, ?_⟩
    · rw [e, Nat.mul_mod_right]
    · rw [e, Nat.mul_div_cancel_left _ hD]

theorem BernoulliRand.stateBefore_invariant (D : Nat) (source : Nat → Nat) (hD : 1 ≤ D)
    (hD64 : D < 2 ^ 64) (n : Nat) :
    (n % D = 0 →
        (BernoulliRand.stateBefore D source n).decimals = 1 ∧
          (BernoulliRand.stateBefore D source n).drawn = n / D) ∧
      (n % D ≠ 0 →
        (BernoulliRand.stateBefore D source n).decimals = D - n % D + 1 ∧
          (BernoulliRand.stateBefore D source n).X = source (n / D) / 2 ^ (n % D - 1) ∧
          (BernoulliRand.stateBefore D source n).drawn = n / D + 1) := by
  induction n with
  | zero =>
    refine ⟨fun _ => ⟨rfl, ?_⟩, fun h => absurd (Nat.zero_mod D) h⟩
    simp [BernoulliRand.stateBefore, BernoulliRand.StandardVariateState.initial]
  | succ n ih =>
    have hlt := Nat.mod_lt n hD
    have hstep : BernoulliRand.stateBefore D source (n + 1) =
        (BernoulliRand.StandardVariate D source (BernoulliRand.stateBefore D source n)).2 :=
      rfl
    by_cases h0 : n % D = 0
    · obtain ⟨hdec, hdrawn⟩ := ih.1 h0
      have hst : BernoulliRand.stateBefore D source (n + 1) =
          { decimals := D, X := source (n / D), drawn := n / D + 1 } := by
        rw [hstep]
        unfold BernoulliRand.StandardVariate
        rw [if_pos hdec, hdrawn]
      have e1 : (BernoulliRand.stateBefore D source (n + 1)).decimals = D := by rw [hst]
      have e2 : (BernoulliRand.stateBefore D source (n + 1)).X = source (n / D) := by
        rw [hst]
      have e3 : (BernoulliRand.stateBefore D source (n + 1)).drawn = n / D + 1 := by
        rw [hst]
      rw [e1, e2, e3]
      rcases BernoulliRand.succ_div_mod D n hD with ⟨h1, h2, h3⟩ | ⟨h1, h2, h3⟩
      · refine ⟨fun h => by omega, fun _ => ?_⟩
        rw [h2, h3, h0]
        refine ⟨by omega, by simp, rfl⟩
      · refine ⟨fun _ => ?_, fun h => absurd h2 h⟩
        rw [h3]
        exact ⟨by omega, rfl⟩
    · obtain ⟨hdec, hX, hdrawn⟩ := ih.2 h0
      have hne : ¬ (BernoulliRand.stateBefore D source n).decimals = 1 := by
        rw [hdec]
        omega
      have hdecr : (D - n % D + 1 + 2 ^ 64 - 1) % 2 ^ 64 = D - n % D := by omega
      have hpow : source (n / D) / 2 ^ (n % D - 1) / 2 = source (n / D) / 2 ^ (n % D) := by
        obtain ⟨j, hj⟩ : ∃ j, n % D = j + 1 := ⟨n % D - 1, by omega⟩
        rw [hj, Nat.add_sub_cancel, Nat.div_div_eq_div_mul, Nat.pow_succ]
      have hst : BernoulliRand.stateBefore D source (n + 1) =
          { decimals := D - n % D, X := source (n / D) / 2 ^ (n % D),
            drawn := n / D + 1 } := by
        rw [hstep]
        unfold BernoulliRand.StandardVariate
        rw [if_neg hne, hdec, hX, hdrawn, hdecr, Nat.shiftRight_eq_div_pow, pow_one, hpow]
      have e1 : (BernoulliRand.stateBefore D source (n + 1)).decimals = D - n % D := by
        rw [hst]
      have e2 : (BernoulliRand.stateBefore D source (n + 1)).X =
          source (n / D) / 2 ^ (n % D) := by
        rw [hst]
      have e3 : (BernoulliRand.stateBefore D source (n + 1)).drawn = n / D + 1 := by
        rw [hst]
      rw [e1, e2, e3]
      rcases BernoulliRand.succ_div_mod D n hD with ⟨h1, h2, h3⟩ | ⟨h1, h2, h3⟩
      · refine ⟨fun h => by omega, fun _ => ?_⟩
        rw [h2, h3]
        refine ⟨by omega, ?_, rfl⟩
        rw [Nat.add_sub_cancel]
      · refine ⟨fun _ => ?_, fun h => absurd h2 h⟩
        rw [h3]
        exact ⟨by omega, rfl⟩

/-- C23: with `1 ≤ D = maxDecimals` (a `size_t`), call number `n` (0-indexed) of
`StandardVariate` draws a fresh word from the random source exactly when `n` is a
multiple of `D`, and that word is word number `n / D` of the source; the call returns bit
`n mod D` (least-significant bit first) of the word drawn at call `D * (n / D)`; the
counter `decimals` is in `[1, D]` before every call; every returned value is 0 or 1. -/
theorem bernoulli_standardVariate_bit_stream (D : Nat) (source : Nat → Nat) (hD : 1 ≤ D)
    (hD64 : D < 2 ^ 64) (n : Nat) :
    ((BernoulliRand.stateBefore D source (n + 1)).drawn =
          (BernoulliRand.stateBefore D source n).drawn + 1 ↔ n % D = 0) ∧
      (n % D ≠ 0 →
        (BernoulliRand.stateBefore D source (n + 1)).drawn =
          (BernoulliRand.stateBefore D source n).drawn) ∧
      (n % D = 0 →
        (BernoulliRand.stateBefore D source n).drawn = n / D ∧
          (BernoulliRand.stateBefore D source (n + 1)).X = source (n / D)) ∧
      BernoulliRand.nthStandardVariate D source n = source (n / D) / 2 ^ (n % D) % 2 ∧
      (1 ≤ (BernoulliRand.stateBefore D source n).decimals ∧
        (BernoulliRand.stateBefore D source n).decimals ≤ D) ∧
      (BernoulliRand.nthStandardVariate D source n = 0 ∨
        BernoulliRand.nthStandardVariate D source n = 1) := by
  have hinv := BernoulliRand.stateBefore_invariant D source hD hD64 n
  have hlt := Nat.mod_lt n hD
  have hstep : BernoulliRand.stateBefore D source (n + 1) =
      (BernoulliRand.StandardVariate D source (BernoulliRand.stateBefore D source n)).2 :=
    rfl
  have hnth : BernoulliRand.nthStandardVariate D source n =
      source (n / D) / 2 ^ (n % D) % 2 := by
    unfold BernoulliRand.nthStandardVariate BernoulliRand.StandardVariate
    by_cases h0 : n % D = 0
    · obtain ⟨hdec, hdrawn⟩ := hinv.1 h0
      rw [if_pos hdec, hdrawn, h0]
      simp
    · obtain ⟨hdec, hX, hdrawn⟩ := hinv.2 h0
      have hne : ¬ (BernoulliRand.stateBefore D source n).decimals = 1 := by
        rw [hdec]
        omega
      have hpow : source (n / D) / 2 ^ (n % D - 1) / 2 = source (n / D) / 2 ^ (n % D) := by
        obtain ⟨j, hj⟩ : ∃ j, n % D = j + 1 := ⟨n % D - 1, by omega⟩
        rw [hj, Nat.add_sub_cancel, Nat.div_div_eq_div_mul, Nat.pow_succ]
      rw [if_neg hne]
      simp only [Nat.and_one_is_mod, hX, Nat.shiftRight_eq_div_pow, pow_one, hpow]
  have hdn : (BernoulliRand.stateBefore D source n).drawn =
      if n % D = 0 then n / D else n / D + 1 := by
    by_cases h0 : n % D = 0
    · rw [if_pos h0]
      exact (hinv.1 h0).2
    · rw [if_neg h0]
      exact (hinv.2 h0).2.2
  have hds : (BernoulliRand.stateBefore D source (n + 1)).drawn = n / D + 1 := by
    have hinv' := BernoulliRand.stateBefore_invariant D source hD hD64 (n + 1)
    rcases BernoulliRand.succ_div_mod D n hD with ⟨-, h2, h3⟩ | ⟨-, h2, h3⟩
    · have hne : (n + 1) % D ≠ 0 := by
        rw [h2]
        exact Nat.succ_ne_zero _
      rw [(hinv'.2 hne).2.2, h3]
    · rw [(hinv'.1 h2).2, h3]
  refine ⟨?_, ?_, ?_, hnth, ?_, ?_⟩
  · rw [hds, hdn]
    by_cases h0 : n % D = 0
    · simp [h0]
    · simp [h0]
  · intro h0
    rw [hds, hdn, if_neg h0]
  · intro h0
    obtain ⟨hdec, hdrawn⟩ := hinv.1 h0
    refine ⟨hdrawn, ?_⟩
    rw [hstep]
    unfold BernoulliRand.StandardVariate
    rw [if_pos hdec, hdrawn]
  · by_cases h0 : n % D = 0
    · rw [(hinv.1 h0).1]
      exact ⟨le_refl 1, hD⟩
    · rw [(hinv.2 h0).1]
      omega
  · rw [hnth]
    omega

theorem bernoulli_standardVariate_bit_stream_witness :
    BernoulliRand.nthStandardVariate 3 (fun i => 5 + i) 4 = (5 + 4 / 3) / 2 ^ (4 % 3) % 2 :=
  (bernoulli_standardVariate_bit_stream 3 (fun i => 5 + i) (by decide) (by decide)
    4).2.2.2.1

/-! ## Negative hypergeometric: distribution function -/

theorem NegativeHyperGeometricRand.foldl_add_range {R : Type} [LinearOrderedField R]
    (g : Nat → R) (c : R) (n : Nat) :
    (List.range n).foldl (fun sum i => sum + g i) c = c + ∑ i ∈ Finset.range n, g i := by
  induction n with
  | zero => simp
  | succ n ih =>
    rw [List.range_succ, List.foldl_append, ih, Finset.sum_range_succ]
    simp [add_assoc]

theorem NegativeHyperGeometricRand.foldl_sub_range {R : Type} [LinearOrderedField R]
    (g : Nat → R) (c : R) (n : Nat) :
    (List.range n).foldl (fun sum i => sum - g i) c = c - ∑ i ∈ Finset.range n, g i := by
  induction n with
  | zero => simp
  | succ n ih =>
    rw [List.range_succ, List.foldl_append, ih, Finset.sum_range_succ]
    simp only [List.foldl_cons, List.foldl_nil]
    ring

theorem NegativeHyperGeometricRand.map_sum_range {R : Type} [LinearOrderedField R]
    (g : Nat → R) (n : Nat) :
    ((List.range n).map g).sum = ∑ i ∈ Finset.range n, g i := by
  induction n with
  | zero => simp
  | succ n ih =>
    rw [List.range_succ, List.map_append, List.sum_append, ih, Finset.sum_range_succ]
    simp

theorem NegativeHyperGeometricRand.P_nonneg (sm : StdMath ℝ) (hexp : sm.exp = Real.exp)
    (rm : RandMath ℝ) (s : NegativeHyperGeometricRand ℝ) (k : ℤ) :
    0 ≤ NegativeHyperGeometricRand.P sm rm s k := by
  unfold NegativeHyperGeometricRand.P NegativeHyperGeometricRand.logP
  by_cases h : k < NegativeHyperGeometricRand.MinValue s ∨
      k > NegativeHyperGeometricRand.MaxValue s
  · rw [if_pos h]
  · rw [if_neg h, if_neg h, StdMath.expExt_coe, hexp]
    exact (Real.exp_pos _).le

theorem NegativeHyperGeometricRand.P_eq_zero_of_gt {R : Type} [LinearOrderedField R]
    (sm : StdMath R) (rm : RandMath R) (s : NegativeHyperGeometricRand R) (k : ℤ)
    (h : s.N - s.M < k) : NegativeHyperGeometricRand.P sm rm s k = 0 := by
  have h' : k < NegativeHyperGeometricRand.MinValue s ∨
      k > NegativeHyperGeometricRand.MaxValue s := Or.inr h
  unfold NegativeHyperGeometricRand.P
  rw [if_pos h']


theorem NegativeHyperGeometricRand.sum_P_tail {R : Type} [LinearOrderedField R]
    (sm : StdMath R) (rm : RandMath R) (s : NegativeHyperGeometricRand R) (d : ℕ)
    (hd : s.N - s.M = (d : ℤ)) (n : ℕ) :
    ∑ i ∈ Finset.range (d + 1 + n), NegativeHyperGeometricRand.P sm rm s (i : ℤ) =
      ∑ i ∈ Finset.range (d + 1), NegativeHyperGeometricRand.P sm rm s (i : ℤ) := by
  rw [Finset.sum_range_add]
  have hz : ∑ x ∈ Finset.range n,
      NegativeHyperGeometricRand.P sm rm s ((d + 1 + x : ℕ) : ℤ) = 0 := by
    apply Finset.sum_eq_zero
    intro x _
    apply NegativeHyperGeometricRand.P_eq_zero_of_gt
    rw [hd]
    omega
  rw [hz, add_zero]

theorem NegativeHyperGeometricRand.sum_P_le_one (sm : StdMath ℝ) (hexp : sm.exp = Real.exp)
    (rm : RandMath ℝ) (s : NegativeHyperGeometricRand ℝ) (d : ℕ)
    (hd : s.N - s.M = (d : ℤ))
    (hsum : ∑ i ∈ Finset.range (d + 1), NegativeHyperGeometricRand.P sm rm s (i : ℤ) = 1)
    (n : ℕ) :
    ∑ i ∈ Finset.range n, NegativeHyperGeometricRand.P sm rm s (i : ℤ) ≤ 1 := by
  have hsub : Finset.range n ⊆ Finset.range (d + 1 + n) :=
    Finset.range_subset.mpr (by omega)
  have hle := Finset.sum_le_sum_of_subset_of_nonneg hsub
    (f := fun i : ℕ => NegativeHyperGeometricRand.P sm rm s (i : ℤ))
    (fun i _ _ => NegativeHyperGeometricRand.P_nonneg sm hexp rm s (i : ℤ))
  rw [NegativeHyperGeometricRand.sum_P_tail sm rm s d hd n, hsum] at hle
  exact hle

theorem NegativeHyperGeometricRand.prefixSum_eq {R : Type} [LinearOrderedField R]
    (sm : StdMath R) (rm : RandMath R) (s : NegativeHyperGeometricRand R) (k : ℤ) :
    NegativeHyperGeometricRand.prefixSum sm rm s k =
      ∑ i ∈ Finset.range (k + 1).toNat, NegativeHyperGeometricRand.P sm rm s (i : ℤ) := by
  unfold NegativeHyperGeometricRand.prefixSum
  exact NegativeHyperGeometricRand.map_sum_range
    (fun i : ℕ => NegativeHyperGeometricRand.P sm rm s (i : ℤ)) _

theorem NegativeHyperGeometricRand.F_eq_prefixSum {R : Type} [LinearOrderedField R]
    (sm : StdMath R) (rm : RandMath R) (s : NegativeHyperGeometricRand R) (d : ℕ)
    (hd : s.N - s.M = (d : ℤ))
    (hsum : ∑ i ∈ Finset.range (d + 1), NegativeHyperGeometricRand.P sm rm s (i : ℤ) = 1)
    (k : ℤ) :
    NegativeHyperGeometricRand.F sm rm s k =
      NegativeHyperGeometricRand.prefixSum sm rm s k := by
  rw [NegativeHyperGeometricRand.prefixSum_eq]
  unfold NegativeHyperGeometricRand.F
  simp only [NegativeHyperGeometricRand.MinValue, NegativeHyperGeometricRand.MaxValue, hd]
  by_cases h0 : k < 0
  · rw [if_pos h0]
    have : (k + 1).toNat = 0 := by omega
    rw [this]
    simp
  · rw [if_neg h0]
    by_cases h1 : k ≥ (d : ℤ)
    · rw [if_pos h1]
      obtain ⟨n, hn⟩ : ∃ n : ℕ, (k + 1).toNat = d + 1 + n :=
        ⟨(k + 1).toNat - (d + 1), by omega⟩
      rw [hn, NegativeHyperGeometricRand.sum_P_tail sm rm s d hd n, hsum]
    · rw [if_neg h1]
      obtain ⟨kn, rfl⟩ : ∃ kn : ℕ, k = (kn : ℤ) := ⟨k.toNat, by omega⟩
      have hk1 : ((kn : ℤ) + 1).toNat = kn + 1 := by omega
      have hkd : kn < d := by omega
      by_cases hb : ((kn : ℤ) : R) ≤ 1 / 2 * ((d : ℤ) : R)
      · rw [if_pos hb, hk1,
          NegativeHyperGeometricRand.foldl_add_range
            (fun i : ℕ => NegativeHyperGeometricRand.P sm rm s (i : ℤ)) 0 (kn + 1),
          zero_add]
      · rw [if_neg hb, hk1]
        have hlen : ((d : ℤ) - (kn : ℤ)).toNat = d - kn := by omega
        have hfun : (fun (sum : R) (j : ℕ) =>
            sum - NegativeHyperGeometricRand.P sm rm s ((kn : ℤ) + 1 + (j : ℤ))) =
            (fun (sum : R) (j : ℕ) =>
              sum - NegativeHyperGeometricRand.P sm rm s ((kn + 1 + j : ℕ) : ℤ)) := by
          funext sum j
          congr 2
        rw [hlen, hfun,
          NegativeHyperGeometricRand.foldl_sub_range
            (fun j : ℕ => NegativeHyperGeometricRand.P sm rm s ((kn + 1 + j : ℕ) : ℤ)) 1
            (d - kn)]
        have hsplit := Finset.sum_range_add
          (fun i : ℕ => NegativeHyperGeometricRand.P sm rm s (i : ℤ)) (kn + 1) (d - kn)
        have hlen2 : kn + 1 + (d - kn) = d + 1 := by omega
        rw [hlen2, hsum] at hsplit
        rw [sub_eq_iff_eq_add]
        rw [hsplit]

theorem NegativeHyperGeometricRand.setParameters_fields (rm : RandMath ℝ)
    (hlfact : ∀ n : ℕ, rm.lfact (n : ℤ) = Real.log (n.factorial : ℝ))
    (s0 : NegativeHyperGeometricRand ℝ) (a b d : ℕ) :
    (NegativeHyperGeometricRand.SetParameters rm s0 ((a + 1 + b + d : ℕ) : ℤ)
        ((a + 1 + b : ℕ) : ℤ) ((a + 1 : ℕ) : ℤ)).2.N = ((a + 1 + b + d : ℕ) : ℤ) ∧
      (NegativeHyperGeometricRand.SetParameters rm s0 ((a + 1 + b + d : ℕ) : ℤ)
        ((a + 1 + b : ℕ) : ℤ) ((a + 1 : ℕ) : ℤ)).2.M = ((a + 1 + b : ℕ) : ℤ) ∧
      (NegativeHyperGeometricRand.SetParameters rm s0 ((a + 1 + b + d : ℕ) : ℤ)
        ((a + 1 + b : ℕ) : ℤ) ((a + 1 : ℕ) : ℤ)).2.m = ((a + 1 : ℕ) : ℤ) ∧
      (NegativeHyperGeometricRand.SetParameters rm s0 ((a + 1 + b + d : ℕ) : ℤ)
        ((a + 1 + b : ℕ) : ℤ) ((a + 1 : ℕ) : ℤ)).2.pmfCoef =
        Real.log ((a + 1 + b).factorial : ℝ) + Real.log (d.factorial : ℝ) -
          Real.log (a.factorial : ℝ) - Real.log (b.factorial : ℝ) -
          Real.log ((a + 1 + b + d).factorial : ℝ) := by
  have c1 : ¬ (((a + 1 + b + d : ℕ) : ℤ) ≤ 0 ∨ ((a + 1 + b : ℕ) : ℤ) ≤ 0 ∨
      ((a + 1 : ℕ) : ℤ) ≤ 0) := by omega
  have c2 : ¬ (((a + 1 + b : ℕ) : ℤ) > ((a + 1 + b + d : ℕ) : ℤ)) := by omega
  have c3 : ¬ (((a + 1 : ℕ) : ℤ) > ((a + 1 + b : ℕ) : ℤ)) := by omega
  have i1 : ((a + 1 + b + d : ℕ) : ℤ) - ((a + 1 + b : ℕ) : ℤ) = ((d : ℕ) : ℤ) := by omega
  have i2 : ((a + 1 : ℕ) : ℤ) - 1 = ((a : ℕ) : ℤ) := by omega
  have i3 : ((a + 1 + b : ℕ) : ℤ) - ((a + 1 : ℕ) : ℤ) = ((b : ℕ) : ℤ) := by omega
  unfold NegativeHyperGeometricRand.SetParameters
  rw [if_neg c1, if_neg c2, if_neg c3]
  refine ⟨rfl, rfl, rfl, ?_⟩
  simp only [i1, i2, i3, hlfact]

theorem NegativeHyperGeometricRand.sum_P_eq_one (sm : StdMath ℝ) (hexp : sm.exp = Real.exp)
    (rm : RandMath ℝ)
    (hlfact : ∀ n : ℕ, rm.lfact (n : ℤ) = Real.log (n.factorial : ℝ))
    (s : NegativeHyperGeometricRand ℝ) (a b d : ℕ)
    (hN : s.N = ((a + 1 + b + d : ℕ) : ℤ)) (hM : s.M = ((a + 1 + b : ℕ) : ℤ))
    (hm : s.m = ((a + 1 : ℕ) : ℤ))
    (hc : s.pmfCoef =
      Real.log ((a + 1 + b).factorial : ℝ) + Real.log (d.factorial : ℝ) -
        Real.log (a.factorial : ℝ) - Real.log (b.factorial : ℝ) -
        Real.log ((a + 1 + b + d).factorial : ℝ)) :
    ∑ k ∈ Finset.range (d + 1), NegativeHyperGeometricRand.P sm rm s (k : ℤ) = 1 := by
  have hsum : ∑ k ∈ Finset.range (d + 1), NegativeHyperGeometricRand.P sm rm s (k : ℤ) =
      ∑ k ∈ Finset.range (d + 1),
        (((k + a).choose k : ℝ) * ((b + d - k).choose b : ℝ)) /
          ((a + 1 + b + d).choose (a + 1 + b) : ℝ) := by
    apply Finset.sum_congr rfl
    intro k hk
    exact NegativeHyperGeometricRand.P_eq_choose sm hexp rm hlfact s a b d k
      (Nat.lt_succ_iff.mp (Finset.mem_range.mp hk)) hN hM hm hc
  have hc3 : ((a + 1 + b + d).choose (a + 1 + b) : ℝ) ≠ 0 := by
    have : 0 < (a + 1 + b + d).choose (a + 1 + b) := Nat.choose_pos (by omega)
    positivity
  have hnat := NegativeHyperGeometricRand.choose_range a b d
  have hreal : ∑ k ∈ Finset.range (d + 1),
      (((k + a).choose k : ℝ) * ((b + d - k).choose b : ℝ)) =
        ((a + 1 + b + d).choose (a + 1 + b) : ℝ) := by
    exact_mod_cast hnat
  rw [hsum, ← Finset.sum_div, hreal, div_self hc3]

/-- C21: in exact arithmetic with `lfact(n) = log n!`, for every valid parameter triple
`1 ≤ m ≤ M ≤ N` and every integer `k`, `F(k)` equals the prefix sum `Σ_{i=0..k} P(i)`
in the forward branch and in the backward branch alike; it is 0 for `k < 0` and 1 for
`k ≥ N - M`; for `0 ≤ k ≤ N - M` the backward expression `1 - Σ_{i=k+1..N-M} P(i)`
equals that prefix sum; `F` is non-decreasing in `k` and takes values in `[0, 1]`. -/
theorem negativeHyperGeometric_F_prefix_sum (sm : StdMath ℝ) (hexp : sm.exp = Real.exp)
    (rm : RandMath ℝ)
    (hlfact : ∀ n : ℕ, rm.lfact (n : ℤ) = Real.log (n.factorial : ℝ))
    (s0 : NegativeHyperGeometricRand ℝ) (N M m : ℕ) (hm : 1 ≤ m) (hmM : m ≤ M)
    (hMN : M ≤ N) (k k' : ℤ) :
    NegativeHyperGeometricRand.F sm rm
          (NegativeHyperGeometricRand.SetParameters rm s0 N M m).2 k =
        NegativeHyperGeometricRand.prefixSum sm rm
          (NegativeHyperGeometricRand.SetParameters rm s0 N M m).2 k ∧
      (k < 0 →
        NegativeHyperGeometricRand.F sm rm
          (NegativeHyperGeometricRand.SetParameters rm s0 N M m).2 k = 0) ∧
      ((N : ℤ) - (M : ℤ) ≤ k →
        NegativeHyperGeometricRand.F sm rm
          (NegativeHyperGeometricRand.SetParameters rm s0 N M m).2 k = 1) ∧
      (0 ≤ k → k ≤ (N : ℤ) - (M : ℤ) →
        1 - ∑ j ∈ Finset.range ((N : ℤ) - (M : ℤ) - k).toNat,
            NegativeHyperGeometricRand.P sm rm
              (NegativeHyperGeometricRand.SetParameters rm s0 N M m).2 (k + 1 + (j : ℤ)) =
          NegativeHyperGeometricRand.prefixSum sm rm
            (NegativeHyperGeometricRand.SetParameters rm s0 N M m).2 k) ∧
      (k ≤ k' →
        NegativeHyperGeometricRand.F sm rm
            (NegativeHyperGeometricRand.SetParameters rm s0 N M m).2 k ≤
          NegativeHyperGeometricRand.F sm rm
            (NegativeHyperGeometricRand.SetParameters rm s0 N M m).2 k') ∧
      0 ≤ NegativeHyperGeometricRand.F sm rm
          (NegativeHyperGeometricRand.SetParameters rm s0 N M m).2 k ∧
      NegativeHyperGeometricRand.F sm rm
          (NegativeHyperGeometricRand.SetParameters rm s0 N M m).2 k ≤ 1 := by
  obtain ⟨a, rfl⟩ : ∃ a, m = a + 1 := ⟨m - 1, by omega⟩
  obtain ⟨b, rfl⟩ : ∃ b, M = a + 1 + b := ⟨M - (a + 1), by omega⟩
  obtain ⟨d, rfl⟩ : ∃ d, N = a + 1 + b + d := ⟨N - (a + 1 + b), by omega⟩
  obtain ⟨hN, hM, hm', hc⟩ :=
    NegativeHyperGeometricRand.setParameters_fields rm hlfact s0 a b d
  generalize NegativeHyperGeometricRand.SetParameters rm s0 ((a + 1 + b + d : ℕ) : ℤ)
    ((a + 1 + b : ℕ) : ℤ) ((a + 1 : ℕ) : ℤ) = r at hN hM hm' hc ⊢
  have hd : r.2.N - r.2.M = (d : ℤ) := by rw [hN, hM]; omega
  have hd' : ((a + 1 + b + d : ℕ) : ℤ) - ((a + 1 + b : ℕ) : ℤ) = (d : ℤ) := by omega
  have hsum := NegativeHyperGeometricRand.sum_P_eq_one sm hexp rm hlfact r.2 a b d
    hN hM hm' hc
  have hF : ∀ j : ℤ, NegativeHyperGeometricRand.F sm rm r.2 j =
      NegativeHyperGeometricRand.prefixSum sm rm r.2 j :=
    NegativeHyperGeometricRand.F_eq_prefixSum sm rm r.2 d hd hsum
  have hnn : ∀ i : ℕ, 0 ≤ NegativeHyperGeometricRand.P sm rm r.2 (i : ℤ) :=
    fun i => NegativeHyperGeometricRand.P_nonneg sm hexp rm r.2 (i : ℤ)
  rw [hd']
  refine ⟨hF k, ?_, ?_, ?_, ?_, ?_, ?_⟩
  · intro h0
    rw [hF, NegativeHyperGeometricRand.prefixSum_eq]
    have : (k + 1).toNat = 0 := by omega
    rw [this]
    simp
  · intro h1
    rw [hF, NegativeHyperGeometricRand.prefixSum_eq]
    obtain ⟨n, hn⟩ : ∃ n : ℕ, (k + 1).toNat = d + 1 + n :=
      ⟨(k + 1).toNat - (d + 1), by omega⟩
    rw [hn, NegativeHyperGeometricRand.sum_P_tail sm rm r.2 d hd n, hsum]
  · intro h0 h1
    rw [NegativeHyperGeometricRand.prefixSum_eq]
    obtain ⟨kn, rfl⟩ : ∃ kn : ℕ, k = (kn : ℤ) := ⟨k.toNat, by omega⟩
    have hk1 : ((kn : ℤ) + 1).toNat = kn + 1 := by omega
    have hlen : ((d : ℤ) - (kn : ℤ)).toNat = d - kn := by omega
    have hsplit := Finset.sum_range_add
      (fun i : ℕ => NegativeHyperGeometricRand.P sm rm r.2 (i : ℤ)) (kn + 1) (d - kn)
    have hlen2 : kn + 1 + (d - kn) = d + 1 := by omega
    rw [hlen2, hsum] at hsplit
    rw [hk1, hlen, sub_eq_iff_eq_add, hsplit]
    simp only [Nat.cast_add, Nat.cast_one]
  · intro hkk
    rw [hF, hF, NegativeHyperGeometricRand.prefixSum_eq,
      NegativeHyperGeometricRand.prefixSum_eq]
    exact Finset.sum_le_sum_of_subset_of_nonneg
      (Finset.range_subset.mpr (by omega)) (fun i _ _ => hnn i)
  · rw [hF, NegativeHyperGeometricRand.prefixSum_eq]
    exact Finset.sum_nonneg (fun i _ => hnn i)
  · rw [hF, NegativeHyperGeometricRand.prefixSum_eq]
    exact NegativeHyperGeometricRand.sum_P_le_one sm hexp rm r.2 d hd hsum _

theorem negativeHyperGeometric_F_prefix_sum_witness :
    NegativeHyperGeometricRand.F (StdMath.mk Real.log Real.exp Real.sqrt)
        (RandMath.mk (fun n => Real.log (n.toNat.factorial : ℝ)) (fun _ => 0)
          (fun _ _ _ root => (false, root)))
        (NegativeHyperGeometricRand.SetParameters
          (RandMath.mk (fun n => Real.log (n.toNat.factorial : ℝ)) (fun _ => 0)
            (fun _ _ _ root => (false, root)))
          (NegativeHyperGeometricRand.mk 0 0 0 0 0) ((5 : ℕ) : ℤ) ((2 : ℕ) : ℤ)
          ((1 : ℕ) : ℤ)).2 2 ≤ 1 :=
  (negativeHyperGeometric_F_prefix_sum (StdMath.mk Real.log Real.exp Real.sqrt) rfl
    (RandMath.mk (fun n => Real.log (n.toNat.factorial : ℝ)) (fun _ => 0)
      (fun _ _ _ root => (false, root)))
    (fun n => by simp) (NegativeHyperGeometricRand.mk 0 0 0 0 0) 5 2 1 (by decide)
    (by decide) (by decide) 2 3).2.2.2.2.2.2

end RandLib
